import Mathlib

/-!
Verification development for the 3xlootbot scrub pipeline.

The definitions below are a shallow embedding of the JavaScript source of the
repository.  The full pipeline (trust gate, dedup/enqueue gate, sequential
worker, backoff controller, digest scheduler) lives in the first document of
`src/unnamed/part_001`; the older variant in `src/index.js` is embedded
separately in the `IndexJs` namespace where it differs.

Modelling conventions:
- JavaScript strings are Lean `String`s (a `String` wraps a `List Char`).
- Millisecond timestamps and durations are `Int` (JS numbers; differences can
  be negative).
- JS `Map`/plain-object dictionaries are association lists `List (String × β)`
  with JS `Map.set`/`Map.delete` semantics (in-place update keeping order,
  append for new keys).
- JS `Set` is a `List String` with add-if-absent.
- `saveState()` (a synchronous full-document write whose failure is caught and
  logged in the source) is modelled as appending the current state snapshot to
  a `journal` field.
- Network effects (the OpenXBL resolver, Discord sends) are parameters: the
  worker step takes the outcome of `fetchOpenXblMergedProfile` as an argument,
  and the digest scheduler takes a flag for whether the digest channel fetch
  succeeded.
-/

/-- Set of JavaScript whitespace characters, by code point: the class matched
by the regex `\s` and stripped by `String.prototype.trim` (space, tab, line
terminators, vertical tab, form feed, NBSP, the Unicode space separators, and
the BOM). -/
def isJsWs (c : Char) : Bool :=
  let n := c.toNat
  n = 32 || n = 9 || n = 10 || n = 11 || n = 12 || n = 13 ||
  n = 160 || n = 5760 || (8192 ≤ n && n ≤ 8202) ||
  n = 8232 || n = 8233 || n = 8239 || n = 8287 || n = 12288 || n = 65279

/-- One pass of `s.replace(/\s+/g, " ")`: every maximal run of whitespace is
replaced by a single space.  The flag records whether we are inside a run. -/
def collapseAux : Bool → List Char → List Char
  | _, [] => []
  | inRun, c :: t =>
    if isJsWs c then
      if inRun then collapseAux true t else ' ' :: collapseAux true t
    else c :: collapseAux false t

/-- Remove trailing JS whitespace (the right half of `String.prototype.trim`). -/
def trimEndL : List Char → List Char
  | [] => []
  | c :: t =>
    if trimEndL t = [] then (if isJsWs c then [] else [c]) else c :: trimEndL t

/-- `String.prototype.trim`: drop leading and trailing JS whitespace. -/
def trimL (l : List Char) : List Char := trimEndL (l.dropWhile isJsWs)

/-- `normalizeGamertag` on the character list:
`(s ?? "").replace(/\s+/g, " ").trim()`. -/
def normalizeGamertagL (l : List Char) : List Char := trimL (collapseAux false l)

/-- `gtKey` on the character list: `normalizeGamertag(s).toLowerCase()`.
`toLowerCase` is modelled character-wise with `Char.toLower` (the gamertag
alphabet is ASCII). -/
def gtKeyL (l : List Char) : List Char := (normalizeGamertagL l).map Char.toLower

/-- Source `normalizeGamertag(s)`: collapse whitespace runs to a single space
and trim the ends. -/
def normalizeGamertag (s : String) : String := ⟨normalizeGamertagL s.data⟩

/-- Source `gtKey(s)`: the canonical comparison key of a raw handle. -/
def gtKey (s : String) : String := ⟨gtKeyL s.data⟩

/-- Head of the list is not whitespace (vacuously true for `[]`). -/
def headNotWs : List Char → Bool
  | [] => true
  | c :: _ => !isJsWs c

/-- The first two characters are not both whitespace. -/
def headPairOk (a : Char) : List Char → Bool
  | [] => true
  | b :: _ => !(isJsWs a && isJsWs b)

/-- No two adjacent whitespace characters anywhere in the list. -/
def noAdjWs : List Char → Bool
  | [] => true
  | a :: t => headPairOk a t && noAdjWs t

/-- Every whitespace character in the list is a plain space. -/
def wsOnlySpace (l : List Char) : Prop := ∀ c ∈ l, isJsWs c = true → c = ' '

theorem toNat_ofNat_of_valid (n : Nat) (h : n.isValidChar) : (Char.ofNat n).toNat = n := by
  simp [Char.ofNat, dif_pos h, Char.ofNatAux, Char.toNat, UInt32.toNat, BitVec.toNat_ofNatLt]

theorem toLower_idem (c : Char) : Char.toLower (Char.toLower c) = Char.toLower c := by
  unfold Char.toLower
  by_cases h : c.toNat ≥ 65 ∧ c.toNat ≤ 90
  · rw [if_pos h]
    have hv : (c.toNat + 32).isValidChar := Or.inl (by omega)
    rw [toNat_ofNat_of_valid _ hv]
    rw [if_neg (by omega)]
  · rw [if_neg h, if_neg h]

theorem isJsWs_toLower (c : Char) : isJsWs (Char.toLower c) = isJsWs c := by
  unfold Char.toLower
  by_cases h : c.toNat ≥ 65 ∧ c.toNat ≤ 90
  · rw [if_pos h]
    have hv : (c.toNat + 32).isValidChar := Or.inl (by omega)
    have ht := toNat_ofNat_of_valid _ hv
    simp only [isJsWs, ht]
    have h1 : ∀ b1 b2 : Bool, b1 = false → b2 = false → b1 = b2 := by
      intro b1 b2 e1 e2; rw [e1, e2]
    apply h1 <;> (simp only [Bool.or_eq_false_iff, Bool.and_eq_false_iff,
      decide_eq_false_iff_not]) <;> omega
  · rw [if_neg h]

theorem toLower_space : Char.toLower ' ' = ' ' := by decide

theorem isJsWs_space : isJsWs ' ' = true := by decide

theorem headPairOk_of_headNotWs (a : Char) (l : List Char) (h : headNotWs l = true) :
    headPairOk a l = true := by
  cases l with
  | nil => rfl
  | cons b t =>
    simp only [headNotWs, Bool.not_eq_true'] at h
    simp [headPairOk, h]

theorem headNotWs_of_headPairOk (c : Char) (t : List Char) (h : headPairOk c t = true)
    (hc : isJsWs c = true) : headNotWs t = true := by
  cases t with
  | nil => rfl
  | cons d r =>
    simp only [headPairOk, hc, Bool.not_eq_true', Bool.and_eq_false_iff] at h
    rcases h with h | h
    · exact absurd h (by simp [hc])
    · simp [headNotWs, h]

theorem wsOnlySpace_collapseAux : ∀ (l : List Char) (b : Bool), wsOnlySpace (collapseAux b l) := by
  intro l
  induction l with
  | nil => intro b c hc; simp [collapseAux] at hc
  | cons c t ih =>
    intro b d hd hws
    by_cases hc : isJsWs c = true
    · simp only [collapseAux, hc, if_true] at hd
      cases b with
      | true => exact ih true d hd hws
      | false =>
        replace hd : d ∈ ' ' :: collapseAux true t := hd
        rcases List.mem_cons.mp hd with hd | hd
        · exact hd
        · exact ih true d hd hws
    · simp only [collapseAux, hc, if_false, Bool.false_eq_true, List.mem_cons] at hd
      rcases hd with hd | hd
      · subst hd; exact absurd hws (by simp [hc])
      · exact ih false d hd hws

theorem headNotWs_collapseAux_true : ∀ (l : List Char), headNotWs (collapseAux true l) = true := by
  intro l
  induction l with
  | nil => rfl
  | cons c t ih =>
    by_cases hc : isJsWs c = true
    · simp only [collapseAux, hc, if_true]; exact ih
    · simp only [collapseAux, hc]
      simp only [Bool.false_eq_true, if_false, headNotWs, hc, Bool.not_false]

theorem noAdjWs_collapseAux : ∀ (l : List Char) (b : Bool), noAdjWs (collapseAux b l) = true := by
  intro l
  induction l with
  | nil => intro b; rfl
  | cons c t ih =>
    intro b
    by_cases hc : isJsWs c = true
    · cases b with
      | true => simp only [collapseAux, hc, if_true]; exact ih true
      | false =>
        simp only [collapseAux, hc, if_true]
        simp only [noAdjWs, Bool.and_eq_true]
        exact ⟨headPairOk_of_headNotWs _ _ (headNotWs_collapseAux_true t), ih true⟩
    · simp only [collapseAux, hc, Bool.false_eq_true, if_false]
      simp only [noAdjWs, Bool.and_eq_true]
      refine ⟨?_, ih false⟩
      cases h : collapseAux false t with
      | nil => rfl
      | cons d r => simp [headPairOk, hc]

theorem headNotWs_dropWhile (l : List Char) : headNotWs (l.dropWhile isJsWs) = true := by
  induction l with
  | nil => rfl
  | cons c t ih =>
    by_cases hc : isJsWs c = true
    · simp only [List.dropWhile_cons, hc, if_true]; exact ih
    · simp only [List.dropWhile_cons, hc, Bool.false_eq_true, if_false]
      simp [headNotWs, hc]

theorem noAdjWs_tail (c : Char) (t : List Char) (h : noAdjWs (c :: t) = true) :
    noAdjWs t = true := by
  simp only [noAdjWs, Bool.and_eq_true] at h
  exact h.2

theorem noAdjWs_dropWhile (l : List Char) (h : noAdjWs l = true) :
    noAdjWs (l.dropWhile isJsWs) = true := by
  induction l with
  | nil => exact h
  | cons c t ih =>
    by_cases hc : isJsWs c = true
    · simp only [List.dropWhile_cons, hc, if_true]
      exact ih (noAdjWs_tail c t h)
    · simpa only [List.dropWhile_cons, hc, Bool.false_eq_true, if_false] using h

theorem wsOnlySpace_dropWhile (l : List Char) (h : wsOnlySpace l) :
    wsOnlySpace (l.dropWhile isJsWs) := by
  intro c hc hws
  exact h c (List.dropWhile_sublist isJsWs |>.mem hc) hws

theorem trimEndL_cons (c : Char) (t : List Char) :
    trimEndL (c :: t) =
      if trimEndL t = [] then (if isJsWs c then [] else [c]) else c :: trimEndL t := rfl

theorem mem_trimEndL (c : Char) : ∀ (l : List Char), c ∈ trimEndL l → c ∈ l := by
  intro l
  induction l with
  | nil => intro h; exact h
  | cons d t ih =>
    intro h
    rw [trimEndL_cons] at h
    by_cases he : trimEndL t = []
    · rw [if_pos he] at h
      by_cases hd : isJsWs d = true
      · simp [hd] at h
      · rw [if_neg hd] at h
        rcases List.mem_singleton.mp h with h
        simp [h]
    · rw [if_neg he] at h
      rcases List.mem_cons.mp h with h | h
      · simp [h]
      · exact List.mem_cons.mpr (Or.inr (ih h))

theorem wsOnlySpace_trimEndL (l : List Char) (h : wsOnlySpace l) : wsOnlySpace (trimEndL l) := by
  intro c hc hws
  exact h c (mem_trimEndL c l hc) hws

theorem headNotWs_trimEndL (l : List Char) (h : headNotWs l = true) :
    headNotWs (trimEndL l) = true := by
  cases l with
  | nil => rfl
  | cons c t =>
    simp only [headNotWs, Bool.not_eq_true'] at h
    rw [trimEndL_cons]
    by_cases he : trimEndL t = []
    · rw [if_pos he, if_neg (by simp [h])]
      simp [headNotWs, h]
    · rw [if_neg he]
      simp [headNotWs, h]

theorem head_eq_of_trimEndL (t : List Char) (e : Char) (r : List Char)
    (h : trimEndL t = e :: r) : ∃ t2, t = e :: t2 := by
  cases t with
  | nil => simp [trimEndL] at h
  | cons d t2 =>
    rw [trimEndL_cons] at h
    by_cases he : trimEndL t2 = []
    · rw [if_pos he] at h
      by_cases hd : isJsWs d = true
      · simp [hd] at h
      · rw [if_neg hd] at h
        injection h with h1 h2
        exact ⟨t2, by rw [h1]⟩
    · rw [if_neg he] at h
      injection h with h1 h2
      exact ⟨t2, by rw [h1]⟩

theorem noAdjWs_trimEndL (l : List Char) (h : noAdjWs l = true) :
    noAdjWs (trimEndL l) = true := by
  induction l with
  | nil => exact h
  | cons c t ih =>
    have ht := noAdjWs_tail c t h
    rw [trimEndL_cons]
    by_cases he : trimEndL t = []
    · rw [if_pos he]
      by_cases hc : isJsWs c = true
      · rw [if_pos hc]; rfl
      · rw [if_neg hc]; simp [noAdjWs, headPairOk]
    · rw [if_neg he]
      cases hr : trimEndL t with
      | nil => exact absurd hr he
      | cons e r =>
        have hne : noAdjWs (e :: r) = true := by rw [← hr]; exact ih ht
        show (headPairOk c (e :: r) && noAdjWs (e :: r)) = true
        rw [Bool.and_eq_true]
        refine ⟨?_, hne⟩
        obtain ⟨t2, ht2⟩ := head_eq_of_trimEndL t e r hr
        subst ht2
        simp only [noAdjWs, Bool.and_eq_true] at h
        have h1 := h.1
        cases r with
        | nil => simpa [headPairOk] using h1
        | cons f r2 => simpa [headPairOk] using h1

theorem trimEndL_idem (l : List Char) : trimEndL (trimEndL l) = trimEndL l := by
  induction l with
  | nil => rfl
  | cons c t ih =>
    rw [trimEndL_cons]
    by_cases he : trimEndL t = []
    · rw [if_pos he]
      by_cases hc : isJsWs c = true
      · rw [if_pos hc]; rfl
      · rw [if_neg hc]
        rw [trimEndL_cons]
        simp [trimEndL, hc]
    · rw [if_neg he]
      rw [trimEndL_cons]
      rw [ih]
      rw [if_neg he]

theorem headNotWs_map_toLower (l : List Char) :
    headNotWs (l.map Char.toLower) = headNotWs l := by
  cases l with
  | nil => rfl
  | cons c t => simp [headNotWs, isJsWs_toLower]

theorem headPairOk_map_toLower (a : Char) (l : List Char) :
    headPairOk (Char.toLower a) (l.map Char.toLower) = headPairOk a l := by
  cases l with
  | nil => rfl
  | cons b t => simp [headPairOk, isJsWs_toLower]

theorem noAdjWs_map_toLower (l : List Char) :
    noAdjWs (l.map Char.toLower) = noAdjWs l := by
  induction l with
  | nil => rfl
  | cons c t ih =>
    simp only [List.map_cons, noAdjWs]
    rw [headPairOk_map_toLower, ih]

theorem wsOnlySpace_map_toLower (l : List Char) (h : wsOnlySpace l) :
    wsOnlySpace (l.map Char.toLower) := by
  intro c hc hws
  rcases List.mem_map.mp hc with ⟨d, hd, hdc⟩
  subst hdc
  rw [isJsWs_toLower] at hws
  rw [h d hd hws]
  exact toLower_space

theorem trimEndL_map_toLower (l : List Char) :
    trimEndL (l.map Char.toLower) = (trimEndL l).map Char.toLower := by
  induction l with
  | nil => rfl
  | cons c t ih =>
    rw [List.map_cons, trimEndL_cons, trimEndL_cons, ih]
    by_cases he : trimEndL t = []
    · rw [if_pos he, if_pos (by rw [he]; rfl)]
      rw [isJsWs_toLower]
      by_cases hc : isJsWs c = true
      · rw [if_pos hc, if_pos hc]; rfl
      · rw [if_neg hc, if_neg hc]; rfl
    · rw [if_neg he, if_neg (by simpa using he)]
      rfl

theorem collapseAux_true_of_headNotWs (l : List Char) (h : headNotWs l = true) :
    collapseAux true l = collapseAux false l := by
  cases l with
  | nil => rfl
  | cons c t =>
    simp only [headNotWs, Bool.not_eq_true'] at h
    simp [collapseAux, h]

theorem collapseAux_eq_self (l : List Char) (hws : wsOnlySpace l) (hadj : noAdjWs l = true) :
    collapseAux false l = l := by
  induction l with
  | nil => rfl
  | cons c t ih =>
    have ht : noAdjWs t = true := noAdjWs_tail c t hadj
    have hwst : wsOnlySpace t := fun d hd => hws d (List.mem_cons.mpr (Or.inr hd))
    by_cases hc : isJsWs c = true
    · have hcs : c = ' ' := hws c (List.mem_cons.mpr (Or.inl rfl)) hc
      simp only [noAdjWs, Bool.and_eq_true] at hadj
      have hhead : headNotWs t = true := headNotWs_of_headPairOk c t hadj.1 hc
      simp only [collapseAux, hc, if_true]
      rw [collapseAux_true_of_headNotWs t hhead, ih hwst ht, hcs]
      rfl
    · simp only [collapseAux, hc, Bool.false_eq_true, if_false]
      rw [ih hwst ht]

theorem dropWhile_eq_self_of_headNotWs (l : List Char) (h : headNotWs l = true) :
    l.dropWhile isJsWs = l := by
  cases l with
  | nil => rfl
  | cons c t =>
    simp only [headNotWs, Bool.not_eq_true'] at h
    simp [List.dropWhile_cons, h]

theorem wsOnlySpace_normalizeGamertagL (l : List Char) : wsOnlySpace (normalizeGamertagL l) :=
  wsOnlySpace_trimEndL _ (wsOnlySpace_dropWhile _ (wsOnlySpace_collapseAux l false))

theorem noAdjWs_normalizeGamertagL (l : List Char) : noAdjWs (normalizeGamertagL l) = true :=
  noAdjWs_trimEndL _ (noAdjWs_dropWhile _ (noAdjWs_collapseAux l false))

theorem headNotWs_normalizeGamertagL (l : List Char) : headNotWs (normalizeGamertagL l) = true :=
  headNotWs_trimEndL _ (headNotWs_dropWhile _)

theorem trimEndL_normalizeGamertagL (l : List Char) :
    trimEndL (normalizeGamertagL l) = normalizeGamertagL l :=
  trimEndL_idem _

theorem normalizeGamertagL_idem (l : List Char) :
    normalizeGamertagL (normalizeGamertagL l) = normalizeGamertagL l := by
  conv_lhs => rw [normalizeGamertagL, trimL]
  rw [collapseAux_eq_self _ (wsOnlySpace_normalizeGamertagL l) (noAdjWs_normalizeGamertagL l)]
  rw [dropWhile_eq_self_of_headNotWs _ (headNotWs_normalizeGamertagL l)]
  exact trimEndL_normalizeGamertagL l

theorem normalizeGamertagL_map_toLower (l : List Char) :
    normalizeGamertagL ((normalizeGamertagL l).map Char.toLower) =
      (normalizeGamertagL l).map Char.toLower := by
  rw [normalizeGamertagL, trimL]
  rw [collapseAux_eq_self _
    (wsOnlySpace_map_toLower _ (wsOnlySpace_normalizeGamertagL l))
    (by rw [noAdjWs_map_toLower]; exact noAdjWs_normalizeGamertagL l)]
  rw [dropWhile_eq_self_of_headNotWs _
    (by rw [headNotWs_map_toLower]; exact headNotWs_normalizeGamertagL l)]
  rw [trimEndL_map_toLower, trimEndL_normalizeGamertagL]

theorem gtKeyL_idem (l : List Char) : gtKeyL (gtKeyL l) = gtKeyL l := by
  show (normalizeGamertagL ((normalizeGamertagL l).map Char.toLower)).map Char.toLower =
    (normalizeGamertagL l).map Char.toLower
  rw [normalizeGamertagL_map_toLower, List.map_map]
  have hf : Char.toLower ∘ Char.toLower = Char.toLower := by
    funext c; exact toLower_idem c
  rw [hf]

theorem gtKeyL_normalizeGamertagL (l : List Char) :
    gtKeyL (normalizeGamertagL l) = gtKeyL l := by
  show (normalizeGamertagL (normalizeGamertagL l)).map Char.toLower = _
  rw [normalizeGamertagL_idem]
  rfl

theorem data_mk (l : List Char) : (⟨l⟩ : String).data = l := rfl

theorem gtKey_normalizeGamertag (s : String) :
    gtKey (normalizeGamertag s) = gtKey s := by
  rw [gtKey, normalizeGamertag, gtKey, data_mk, gtKeyL_normalizeGamertagL]

/-- C10: canonicalizer idempotence — for every string `s`,
`gtKey(gtKey(s)) = gtKey(s)`: the canonical key of an already-canonical key is
itself, so re-canonicalizing stored keys never changes identity. -/
theorem claim_C10 (s : String) : gtKey (gtKey s) = gtKey s := by
  show (⟨gtKeyL (⟨gtKeyL s.data⟩ : String).data⟩ : String) = ⟨gtKeyL s.data⟩
  rw [data_mk]
  exact congrArg String.mk (gtKeyL_idem s.data)

/-- The accumulation step of the `chunkLines` loop, and also of the textual
join underlying it: `current += (current ? "\n" : "") + line`. -/
def addLine (current line : String) : String :=
  current ++ ((if current = "" then "" else "\n") ++ line)

/-- Join a list of lines with newline separators, the way the `chunkLines`
loop accumulates them (`joinNl [a, b, c] = a ++ "\n" ++ b ++ "\n" ++ c`). -/
def joinNl (ls : List String) : String := ls.foldl addLine ""

/-- The loop of source `chunkLines(lines, maxChars)`: `current` is the page
being accumulated, a page is emitted when adding the next line would exceed
`maxChars`. -/
def chunkAux (maxChars : Nat) (current : String) : List String → List String
  | [] => if current = "" then [] else [current]
  | line :: rest =>
    let add := (if current = "" then "" else "\n") ++ line
    if current.length + add.length > maxChars then
      if current = "" then chunkAux maxChars line rest
      else current :: chunkAux maxChars line rest
    else chunkAux maxChars (current ++ add) rest

/-- Source `chunkLines(lines, maxChars)`: greedy pagination of `lines` into
newline-joined pages of at most `maxChars` characters (except that a single
oversized line is emitted whole). -/
def chunkLines (lines : List String) (maxChars : Nat) : List String :=
  chunkAux maxChars "" lines

theorem joinNl_append_one (ls : List String) (l : String) :
    joinNl (ls ++ [l]) = addLine (joinNl ls) l := by
  rw [joinNl, joinNl, List.foldl_append]
  rfl

theorem string_length_mk (l : List Char) : (⟨l⟩ : String).length = l.length := rfl

theorem string_append_data (a b : String) : (a ++ b).data = a.data ++ b.data := rfl

theorem string_length_append (a b : String) : (a ++ b).length = a.length + b.length := by
  cases a with
  | mk la =>
    cases b with
    | mk lb =>
      show (⟨la ++ lb⟩ : String).length = _
      rw [string_length_mk, List.length_append]
      rfl

theorem string_eq_empty_iff_length (s : String) : s = "" ↔ s.length = 0 := by
  cases s with
  | mk l =>
    cases l with
    | nil => simp [string_length_mk]
    | cons c t =>
      simp only [string_length_mk, List.length_cons]
      constructor
      · intro h
        have := congrArg String.data h
        simp [data_mk] at this
      · intro h; omega

theorem addLine_length (cur l : String) :
    (addLine cur l).length = if cur = "" then l.length else cur.length + 1 + l.length := by
  rw [addLine]
  by_cases h : cur = ""
  · rw [if_pos h, if_pos h, h]
    rw [string_length_append, string_length_append]
    have h0 : ("" : String).length = 0 := rfl
    omega
  · rw [if_neg h, if_neg h]
    rw [string_length_append, string_length_append]
    have : ("\n" : String).length = 1 := rfl
    omega

theorem addLine_ne_empty (cur l : String) (hl : l ≠ "") : addLine cur l ≠ "" := by
  intro h
  apply hl
  rw [string_eq_empty_iff_length] at h ⊢
  rw [addLine_length] at h
  by_cases hc : cur = ""
  · rw [if_pos hc] at h; exact h
  · rw [if_neg hc] at h; omega

theorem joinNl_ne_empty (ls : List String) (h0 : ls ≠ []) (hne : ∀ l ∈ ls, l ≠ "") :
    joinNl ls ≠ "" := by
  induction ls using List.reverseRecOn with
  | nil => exact absurd rfl h0
  | append_singleton ls l ih =>
    rw [joinNl_append_one]
    exact addLine_ne_empty _ _ (hne l (List.mem_append.mpr (Or.inr (List.mem_singleton.mpr rfl))))

theorem joinNl_nil : joinNl [] = "" := rfl

theorem joinNl_singleton (l : String) : joinNl [l] = l := by
  show addLine "" l = l
  rw [addLine, if_pos rfl]
  rfl

theorem chunkAux_nil (maxChars : Nat) (cur : String) :
    chunkAux maxChars cur [] = if cur = "" then [] else [cur] := rfl

theorem chunkAux_cons (maxChars : Nat) (cur line : String) (rest : List String) :
    chunkAux maxChars cur (line :: rest) =
      if cur.length + ((if cur = "" then "" else "\n") ++ line).length > maxChars then
        (if cur = "" then chunkAux maxChars line rest
         else cur :: chunkAux maxChars line rest)
      else chunkAux maxChars (cur ++ ((if cur = "" then "" else "\n") ++ line)) rest := rfl

theorem append_addLine (cur line : String) :
    cur ++ ((if cur = "" then "" else "\n") ++ line) = addLine cur line := rfl

theorem chunkAux_spec (maxChars : Nat) :
    ∀ (lines b0 : List String),
    (∀ l ∈ lines, l ≠ "" ∧ l.length ≤ maxChars) →
    (∀ l ∈ b0, l ≠ "") →
    (joinNl b0).length ≤ maxChars →
    ∃ blocks : List (List String),
      chunkAux maxChars (joinNl b0) lines = blocks.map joinNl ∧
      blocks.flatten = b0 ++ lines ∧
      (∀ b ∈ blocks, b ≠ [] ∧ ∀ l ∈ b, l ≠ "") ∧
      (∀ b ∈ blocks, (joinNl b).length ≤ maxChars) := by
  intro lines
  induction lines with
  | nil =>
    intro b0 hlines hb0 hb0len
    cases b0 with
    | nil =>
      refine ⟨[], ?_, by simp, by simp, by simp⟩
      rw [joinNl_nil, chunkAux_nil, if_pos rfl]
      rfl
    | cons x b0t =>
      have hne : joinNl (x :: b0t) ≠ "" := joinNl_ne_empty _ (by simp) hb0
      refine ⟨[x :: b0t], ?_, by simp, ?_, ?_⟩
      · rw [chunkAux_nil, if_neg hne]
        rfl
      · intro b hb
        rw [List.mem_singleton.mp hb]
        exact ⟨by simp, hb0⟩
      · intro b hb
        rw [List.mem_singleton.mp hb]
        exact hb0len
  | cons line rest ih =>
    intro b0 hlines hb0 hb0len
    have hline : line ≠ "" := (hlines line (by simp)).1
    have hlen : line.length ≤ maxChars := (hlines line (by simp)).2
    have hrest : ∀ l ∈ rest, l ≠ "" ∧ l.length ≤ maxChars := by
      intro l hl; exact hlines l (by simp [hl])
    rw [chunkAux_cons]
    have haddlen : (joinNl b0).length + ((if joinNl b0 = "" then "" else "\n") ++ line).length
        = (addLine (joinNl b0) line).length := by
      rw [addLine]
      simp only [string_length_append]
    by_cases hover :
        (joinNl b0).length + ((if joinNl b0 = "" then "" else "\n") ++ line).length > maxChars
    · rw [if_pos hover]
      by_cases hcur : joinNl b0 = ""
      · exfalso
        rw [haddlen, addLine_length, if_pos hcur] at hover
        omega
      · rw [if_neg hcur]
        have hb0ne : b0 ≠ [] := by
          intro h; rw [h, joinNl_nil] at hcur; exact hcur rfl
        obtain ⟨blocks', h1, h2, h3, h4⟩ := ih [line]
          hrest (by intro l hl; rw [List.mem_singleton.mp hl]; exact hline)
          (by rw [joinNl_singleton]; exact hlen)
        rw [joinNl_singleton] at h1
        refine ⟨b0 :: blocks', ?_, ?_, ?_, ?_⟩
        · rw [List.map_cons, h1]
        · rw [List.flatten_cons, h2]
          simp
        · intro b hb
          rcases List.mem_cons.mp hb with hb | hb
          · rw [hb]; exact ⟨hb0ne, hb0⟩
          · exact h3 b hb
        · intro b hb
          rcases List.mem_cons.mp hb with hb | hb
          · rw [hb]; exact hb0len
          · exact h4 b hb
    · rw [if_neg hover]
      rw [append_addLine, ← joinNl_append_one]
      obtain ⟨blocks', h1, h2, h3, h4⟩ := ih (b0 ++ [line])
        hrest
        (by
          intro l hl
          rcases List.mem_append.mp hl with hl | hl
          · exact hb0 l hl
          · rw [List.mem_singleton.mp hl]; exact hline)
        (by
          rw [joinNl_append_one, ← haddlen]
          omega)
      refine ⟨blocks', h1, ?_, h3, h4⟩
      rw [h2, List.append_assoc]
      rfl

theorem chunkLines_spec (lines : List String) (maxChars : Nat)
    (h : ∀ l ∈ lines, l ≠ "" ∧ l.length ≤ maxChars) :
    ∃ blocks : List (List String),
      chunkLines lines maxChars = blocks.map joinNl ∧
      blocks.flatten = lines ∧
      (∀ b ∈ blocks, b ≠ [] ∧ ∀ l ∈ b, l ≠ "") ∧
      (∀ b ∈ blocks, (joinNl b).length ≤ maxChars) := by
  have := chunkAux_spec maxChars lines [] h (by simp) (by rw [joinNl_nil]; exact Nat.zero_le _)
  rw [joinNl_nil] at this
  simpa [chunkLines] using this

/-- C8 (amended): for every list of nonempty lines, each at most the page
budget long, whose newline-joined concatenation exceeds the budget,
`chunkLines` produces at least 2 pages, never splits a single line across
pages, and concatenating the lines of all pages in order reproduces the
original list (each page is the newline-join of one block of a partition of
the input into consecutive nonempty blocks).  The nonemptiness and
line-fits-in-a-page hypotheses are necessary: a single line longer than the
budget is emitted whole as one oversized page, and a leading empty line is
dropped. -/
theorem claim_C8 (lines : List String) (maxChars : Nat)
    (h : ∀ l ∈ lines, l ≠ "" ∧ l.length ≤ maxChars)
    (htot : maxChars < (joinNl lines).length) :
    2 ≤ (chunkLines lines maxChars).length ∧
    ∃ blocks : List (List String),
      chunkLines lines maxChars = blocks.map joinNl ∧
      blocks.flatten = lines ∧
      (∀ b ∈ blocks, b ≠ []) := by
  obtain ⟨blocks, h1, h2, h3, h4⟩ := chunkLines_spec lines maxChars h
  refine ⟨?_, blocks, h1, h2, fun b hb => (h3 b hb).1⟩
  rw [h1, List.length_map]
  rcases blocks with _ | ⟨b, _ | ⟨b2, bs⟩⟩
  · exfalso
    have hl : lines = [] := by simpa using h2.symm
    rw [hl, joinNl_nil] at htot
    exact Nat.not_lt_zero _ htot
  · exfalso
    have hjoin : lines = b := by simpa using h2.symm
    have hb := h4 b (by simp)
    rw [← hjoin] at hb
    omega
  · simp only [List.length_cons]
    omega

/-- C8 counterexample: a single 6-character line with a 5-character page
budget has concatenated length exceeding the budget, yet `chunkLines`
produces exactly one page (the oversized line is emitted whole), not the
two or more pages the claim requires. -/
theorem claim_C8_counterexample :
    5 < (joinNl ["xxxxxx"]).length ∧
    chunkLines ["xxxxxx"] 5 = ["xxxxxx"] ∧
    ¬ 2 ≤ (chunkLines ["xxxxxx"] 5).length := by
  refine ⟨by decide, by decide, by decide⟩

/-- C8 witness: two short lines overflowing an 8-character budget paginate
into two pages that partition the input. -/
theorem claim_C8_witness :
    (∀ l ∈ ["alpha", "bravo"], l ≠ "" ∧ l.length ≤ 8) ∧
    8 < (joinNl ["alpha", "bravo"]).length ∧
    (2 ≤ (chunkLines ["alpha", "bravo"] 8).length ∧
      ∃ blocks : List (List String),
        chunkLines ["alpha", "bravo"] 8 = blocks.map joinNl ∧
        blocks.flatten = ["alpha", "bravo"] ∧
        (∀ b ∈ blocks, b ≠ [])) :=
  ⟨by decide, by decide, claim_C8 ["alpha", "bravo"] 8 (by decide) (by decide)⟩

/-- Association-list lookup, modelling `map.get(k)` / `obj[k]`. -/
def alGet {β : Type} : List (String × β) → String → Option β
  | [], _ => none
  | (k, v) :: t, key => if k = key then some v else alGet t key

/-- `map.has(k)` / truthiness of `obj[k]`. -/
def alHas {β : Type} (m : List (String × β)) (key : String) : Bool :=
  (alGet m key).isSome

/-- `map.set(k, v)` / `obj[k] = v`: update in place if the key is present,
otherwise append (JS insertion order). -/
def alSet {β : Type} (m : List (String × β)) (key : String) (v : β) : List (String × β) :=
  if alHas m key then m.map (fun p => if p.1 = key then (key, v) else p) else m ++ [(key, v)]

/-- `map.delete(k)` / `delete obj[k]`. -/
def alErase {β : Type} (m : List (String × β)) (key : String) : List (String × β) :=
  m.filter (fun p => !(p.1 = key : Bool))

/-- `set.add(k)` on a JS `Set` modelled as a list: append if absent. -/
def setAdd (s : List String) (k : String) : List String :=
  if k ∈ s then s else s ++ [k]

/-- A `state.pending` entry:
`{ gamertag, gamerscore, firstSeenMs, lastSeenMs }`. -/
structure PendingEntry where
  gamertag : String
  gamerscore : Int
  firstSeenMs : Int
  lastSeenMs : Int
deriving DecidableEq

/-- A `state.flaggedAll` entry:
`{ gamertag, lastKnownGS, firstSeenMs, lastSeenMs }`. -/
structure AllTimeEntry where
  gamertag : String
  lastKnownGS : Int
  firstSeenMs : Int
  lastSeenMs : Int
deriving DecidableEq

/-- A `state.trusted` entry: `{ gamertag, addedMs }`. -/
structure TrustedEntry where
  gamertag : String
  addedMs : Int
deriving DecidableEq

/-- The persisted aggregate (the source's `state` object):
`{ checked, pending, lastDigestMs, flaggedAll, trusted }`. -/
structure StateCore where
  checked : List String
  pending : List (String × PendingEntry)
  lastDigestMs : Int
  flaggedAll : List (String × AllTimeEntry)
  trusted : List (String × TrustedEntry)
deriving DecidableEq

/-- In-memory process state: the persisted aggregate, the journal of snapshots
written by `saveState()` (in order), and the module-level
`globalCooldownUntilMs` (not persisted). -/
structure St where
  core : StateCore
  journal : List StateCore
  cooldownUntilMs : Int
deriving DecidableEq

/-- Source `saveState()`: synchronously rewrite the whole aggregate.  A write
failure is caught and logged in the source; the model records the snapshot. -/
def saveState (st : St) : St := { st with journal := st.journal ++ [st.core] }

/-- Source `isTrustedKey(k)`: `!!state.trusted?.[k]`. -/
def isTrustedKey (c : StateCore) (k : String) : Bool := alHas c.trusted k

/-- The `{ gamertag, gamerscore }` argument of `addFlagged` (`gamerscore` is
`null` when OpenXBL returned no parsable score). -/
structure FlagProfile where
  gamertag : String
  gamerscore : Option Int
deriving DecidableEq

/-- Source `addFlagged(profile)` (part_001): upsert the pending and all-time
flagged entries for the profile's canonical key and persist; no-op when the
key is empty or trusted. -/
def addFlagged (st : St) (profile : FlagProfile) (now : Int) : St :=
  let k := gtKey profile.gamertag
  if k = "" then st
  else if isTrustedKey st.core k then st
  else
    let t := now
    let pending2 :=
      match alGet st.core.pending k with
      | none => alSet st.core.pending k
          { gamertag := profile.gamertag, gamerscore := profile.gamerscore.getD 0,
            firstSeenMs := t, lastSeenMs := t }
      | some p => alSet st.core.pending k
          { gamertag := profile.gamertag, gamerscore := profile.gamerscore.getD p.gamerscore,
            firstSeenMs := p.firstSeenMs, lastSeenMs := t }
    let flaggedAll2 :=
      match alGet st.core.flaggedAll k with
      | none => alSet st.core.flaggedAll k
          { gamertag := profile.gamertag, lastKnownGS := profile.gamerscore.getD 0,
            firstSeenMs := t, lastSeenMs := t }
      | some a => alSet st.core.flaggedAll k
          { gamertag := profile.gamertag, lastKnownGS := profile.gamerscore.getD a.lastKnownGS,
            firstSeenMs := a.firstSeenMs, lastSeenMs := t }
    saveState { st with core := { st.core with pending := pending2, flaggedAll := flaggedAll2 } }

/-- Result of the trust-management commands: `{ ok, display }`. -/
structure OpResult where
  ok : Bool
  display : String
deriving DecidableEq

/-- Source `trustGamertag(gt)`: upsert a trusted entry for the canonical key,
delete any pending and all-time entries for it, persist. -/
def trustGamertag (st : St) (gt : String) (now : Int) : St × OpResult :=
  let original := normalizeGamertag gt
  let k := gtKey original
  if k = "" then (st, { ok := false, display := "" })
  else
    (saveState { st with core := { st.core with
        trusted := alSet st.core.trusted k { gamertag := original, addedMs := now },
        pending := alErase st.core.pending k,
        flaggedAll := alErase st.core.flaggedAll k } },
     { ok := true, display := original })

/-- Source `untrustGamertag(gt)`: remove only the trusted entry for the
canonical key and persist; pending and all-time entries are untouched. -/
def untrustGamertag (st : St) (gt : String) : St × OpResult :=
  let original := normalizeGamertag gt
  let k := gtKey original
  if k = "" then (st, { ok := false, display := "" })
  else
    let display :=
      match alGet st.core.trusted k with
      | some te => if te.gamertag = "" then original else te.gamertag
      | none => original
    (saveState { st with core := { st.core with trusted := alErase st.core.trusted k } },
     { ok := true, display := display })

/-- A transient queue item `{ gt, k, guild }` (the Discord guild handle is an
external object and is not modelled). -/
structure QueueItem where
  gt : String
  k : String
deriving DecidableEq

/-- The worker's FIFO queue plus its in-flight key index `queuedKeys`. -/
structure WorkQueue where
  items : List QueueItem
  queuedKeys : List String
deriving DecidableEq

/-- Source `enqueueGamertag(gt, guild)` (part_001): the dedup/enqueue gate.
Rejects empty keys, trusted keys, already-checked keys, and keys already in
the queue; otherwise appends a queue item and records the key. -/
def enqueueGamertag (c : StateCore) (q : WorkQueue) (gt : String) : WorkQueue :=
  let clean := normalizeGamertag gt
  let k := gtKey clean
  if k = "" then q
  else if isTrustedKey c k then q
  else if k ∈ c.checked then q
  else if k ∈ q.queuedKeys then q
  else { items := q.items ++ [{ gt := clean, k := k }], queuedKeys := q.queuedKeys ++ [k] }

/-- The worker-relevant fields of a resolved OpenXBL profile. -/
structure MergedProfile where
  gamertag : String
  gamerscore : Option Int
deriving DecidableEq

/-- Outcome of one `fetchOpenXblMergedProfile` call as observed by the worker:
success, a `RateLimitError` escaping `openXblFetchWithRetry` (carrying the
optional server `retry-after` in ms), or any other thrown error. -/
inductive FetchOutcome where
  | success (merged : MergedProfile)
  | rateLimited (retryAfterMs : Option Int)
  | failure
deriving DecidableEq

/-- Configuration derived from the environment (defaults in parentheses):
`GS_THRESHOLD` (2500), `DIGEST_INTERVAL_HOURS` (1), `XBL_MAX_RETRIES` (5),
`XBL_BACKOFF_BASE_MS` (4000), `XBL_BACKOFF_MAX_MS` (60000), and whether
`DIGEST_CHANNEL_ID` is nonempty. -/
structure Config where
  GS_THRESHOLD : Int
  DIGEST_INTERVAL_HOURS : Int
  XBL_MAX_RETRIES : Nat
  XBL_BACKOFF_BASE_MS : Int
  XBL_BACKOFF_MAX_MS : Int
  digestChannelConfigured : Bool
deriving DecidableEq

/-- The environment defaults of the source. -/
def defaultConfig : Config :=
  { GS_THRESHOLD := 2500, DIGEST_INTERVAL_HOURS := 1, XBL_MAX_RETRIES := 5,
    XBL_BACKOFF_BASE_MS := 4000, XBL_BACKOFF_MAX_MS := 60000,
    digestChannelConfigured := true }

/-- The classification step inlined in `processQueue` (part_001): unknown
score and clean score are ignored; a low score is handed to `addFlagged`. -/
def classifyMerged (cfg : Config) (st : St) (merged : MergedProfile) (now : Int) : St :=
  match merged.gamerscore with
  | none => st
  | some gs =>
    if gs ≥ cfg.GS_THRESHOLD then st
    else addFlagged st { gamertag := merged.gamertag, gamerscore := some gs } now

/-- One iteration of the `while (queue.length)` loop of `processQueue`
(part_001), for the queue's head item, given the outcome of the resolver
call.  The cooldown wait (`sleep`) only passes time; `now` is the clock at
the head of the iteration.  On success the key is marked checked and the
state persisted before classification; on a rate limit the global cooldown
is set and the same raw handle re-offered through the gate; on any other
failure the item is dropped without being marked checked. -/
def processQueueStep (cfg : Config) (st : St) (q : WorkQueue) (now : Int)
    (res : FetchOutcome) : St × WorkQueue :=
  match q.items with
  | [] => (st, q)
  | item :: rest =>
    let q1 : WorkQueue :=
      { items := rest, queuedKeys := q.queuedKeys.filter (fun k => !(k = item.k : Bool)) }
    if isTrustedKey st.core item.k then (st, q1)
    else if item.k ∈ st.core.checked then (st, q1)
    else
      match res with
      | .success merged =>
        let st1 := saveState { st with core := { st.core with
            checked := setAdd st.core.checked item.k } }
        (classifyMerged cfg st1 merged now, q1)
      | .rateLimited ra =>
        let backoff := min cfg.XBL_BACKOFF_MAX_MS (ra.getD cfg.XBL_BACKOFF_BASE_MS)
        let st1 := { st with cooldownUntilMs := now + backoff }
        (st1, enqueueGamertag st1.core q1 item.gt)
      | .failure => (st, q1)

/-- Code-point lexicographic order on character lists, used to model the
`localeCompare`-based sort (the digest sorts for deterministic output only;
no claim depends on the collation details). -/
def lexLeL : List Char → List Char → Bool
  | [], _ => true
  | _ :: _, [] => false
  | a :: as, b :: bs => if a = b then lexLeL as bs else decide (a < b)

/-- Code-point lexicographic order on strings. -/
def lexLe (a b : String) : Bool := lexLeL a.data b.data

/-- Stable insertion of `x` after all kept elements `y` with `le y x`. -/
def insLine {α : Type} (le : α → α → Bool) (x : α) : List α → List α
  | [] => [x]
  | y :: t => if le y x then y :: insLine le x t else x :: y :: t

/-- Stable insertion sort, modelling JS `Array.prototype.sort` (stable since
ES2019). -/
def insSort {α : Type} (le : α → α → Bool) : List α → List α
  | [] => []
  | x :: t => insLine le x (insSort le t)

theorem insLine_perm {α : Type} (le : α → α → Bool) (x : α) (s : List α) :
    List.Perm (insLine le x s) (x :: s) := by
  induction s with
  | nil => exact List.Perm.refl _
  | cons y s ih =>
    unfold insLine
    by_cases hle : le y x = true
    · rw [if_pos hle]
      exact List.Perm.trans (List.Perm.cons y ih) (List.Perm.swap x y s)
    · rw [if_neg hle]

theorem insSort_perm {α : Type} (le : α → α → Bool) (l : List α) :
    List.Perm (insSort le l) l := by
  induction l with
  | nil => exact List.Perm.refl _
  | cons x t ih =>
    exact List.Perm.trans (insLine_perm le x (insSort le t)) (List.Perm.cons x ih)

/-- The digest window selection of `sendDigestIfDue` (part_001): pending
entries with `lastSeenMs >= cutoff`, not trusted, sorted by display handle.
`cutoff` is `lastDigestMs` when nonzero, else `now - intervalMs`. -/
def digestSelection (cfg : Config) (c : StateCore) (now : Int) :
    List (String × PendingEntry) :=
  let intervalMs := cfg.DIGEST_INTERVAL_HOURS * 60 * 60 * 1000
  let cutoff := if c.lastDigestMs ≠ 0 then c.lastDigestMs else now - intervalMs
  insSort (fun a b => lexLe a.2.gamertag b.2.gamertag)
    (((c.pending.filter (fun kv => decide (kv.2.lastSeenMs ≥ cutoff))).filter
      (fun kv => !(isTrustedKey c kv.1))))

/-- Source `sendDigestIfDue()` (part_001).  Returns the new state and the list
of rendered page bodies handed to the notification sink (empty when nothing
was sent).  `channelOk` models whether the digest channel fetch succeeded
(the source returns early when it fails).  Steps: nothing when no digest
channel is configured; nothing when `lastDigestMs` is nonzero and the
interval has not elapsed; otherwise select the window; if it is empty, stamp
`lastDigestMs = now`, clear pending, persist, send nothing; otherwise send
the paginated lines, stamp, clear, persist.  Per-page send failures are
ignored by the source (the result of `sendEmbedToChannel` is discarded). -/
def sendDigestIfDue (cfg : Config) (st : St) (now : Int) (channelOk : Bool) :
    St × List String :=
  if !cfg.digestChannelConfigured then (st, [])
  else
    let intervalMs := cfg.DIGEST_INTERVAL_HOURS * 60 * 60 * 1000
    if st.core.lastDigestMs ≠ 0 ∧ now - st.core.lastDigestMs < intervalMs then (st, [])
    else
      let items := digestSelection cfg st.core now
      if !channelOk then (st, [])
      else if items = [] then
        (saveState { st with core := { st.core with lastDigestMs := now, pending := [] } }, [])
      else
        let lines := items.map (fun kv => kv.2.gamertag)
        let chunks := chunkLines lines 3500
        (saveState { st with core := { st.core with lastDigestMs := now, pending := [] } },
         chunks)

/-- JS `x || y` for a non-`NaN` number `x`: `y` when `x` is `0`, else `x`. -/
def jsOrInt (a b : Int) : Int := if a = 0 then b else a

/-- The backoff slept inside `openXblFetchWithRetry` at retry number
`attempt` (1-based):
`Math.min(XBL_BACKOFF_MAX_MS, (err.retryAfterMs ?? 0) || (XBL_BACKOFF_BASE_MS * 2 ** (attempt - 1)))`.
Note the `||`: a server retry-after of `0` falls through to the exponential
form. -/
def retryBackoff (cfg : Config) (ra : Option Int) (attempt : Nat) : Int :=
  min cfg.XBL_BACKOFF_MAX_MS
    (jsOrInt (ra.getD 0) (cfg.XBL_BACKOFF_BASE_MS * 2 ^ (attempt - 1)))

/-- Outcome of one bare `openXblFetchJson` call. -/
inductive AttemptOutcome where
  | ok (merged : MergedProfile)
  | rate (retryAfterMs : Option Int)
  | err
deriving DecidableEq

/-- Result of `openXblFetchWithRetry`: a value, a `RateLimitError` re-thrown
after exhausting retries, another error, or the end of the modelled outcome
trace (unreachable when the trace is long enough). -/
inductive RetryResult where
  | ok (merged : MergedProfile)
  | rateErr (retryAfterMs : Option Int)
  | otherErr
  | traceEnded
deriving DecidableEq

/-- Source `openXblFetchWithRetry(url)`: retry on `RateLimitError` up to
`XBL_MAX_RETRIES` times, sleeping `retryBackoff` between attempts, re-throw
any other error, re-throw the `RateLimitError` once retries are exhausted.
The call consumes a trace of attempt outcomes; the function returns the
result together with the list of backoff sleeps performed, in order.
`attempt` is the number of rate limits already seen in this call (0 at the
call's start — the count resets on every non-rate-limited outcome because
every call starts a fresh loop). -/
def runRetry (cfg : Config) (attempt : Nat) : List AttemptOutcome → RetryResult × List Int
  | [] => (.traceEnded, [])
  | o :: rest =>
    match o with
    | .ok m => (.ok m, [])
    | .err => (.otherErr, [])
    | .rate ra =>
      let attempt1 := attempt + 1
      if attempt1 > cfg.XBL_MAX_RETRIES then (.rateErr ra, [])
      else
        let b := retryBackoff cfg ra attempt1
        let r := runRetry cfg attempt1 rest
        (r.1, b :: r.2)

/-- The sleep sequence the spec's backoff formula prescribes for a run of
consecutive rate limits with the given `retry-after` values, starting after
`a` earlier consecutive rate limits (each sleep uses the code's
`retryBackoff` at the incremented attempt count). -/
def expectedRetrySleeps (cfg : Config) (a : Nat) : List (Option Int) → List Int
  | [] => []
  | ra :: rest => retryBackoff cfg ra (a + 1) :: expectedRetrySleeps cfg (a + 1) rest

/-- The backoff formula exactly as the specification states it:
the server-supplied retry-after when present, otherwise
`base * 2 ^ consecutiveRateLimitCount`, capped at the maximum. -/
def specBackoffFormula (cfg : Config) (ra : Option Int) (count : Nat) : Int :=
  min cfg.XBL_BACKOFF_MAX_MS
    (match ra with
     | some r => r
     | none => cfg.XBL_BACKOFF_BASE_MS * 2 ^ count)

/-- A parsed JSON document (`JSON.parse` result).  State files contain only
integer numbers, so `num` carries an `Int`. -/
inductive Json where
  | null
  | bool (b : Bool)
  | num (n : Int)
  | str (s : String)
  | arr (xs : List Json)
  | obj (fields : List (String × Json))

/-- Optional-chaining property access `j?.key`: `none` when `j` is not an
object or lacks the field. -/
def jfield (j : Json) (key : String) : Option Json :=
  match j with
  | .obj fields => alGet fields key
  | _ => none

/-- JS `x ?? d` on an optional field: `d` when absent or `null`. -/
def jcoalesce (x : Option Json) (d : Json) : Json :=
  match x with
  | some .null => d
  | some v => v
  | none => d

/-- JS truthiness test (falsy values: `null`, `false`, `0`, `""`). -/
def jsFalsy (j : Json) : Bool :=
  match j with
  | .null => true
  | .bool b => !b
  | .num n => n = 0
  | .str s => s = ""
  | _ => false

/-- JS `String(v)` for the shallow values appearing in state files (the
array/object cases are approximations never exercised by well-formed files). -/
def jsToString (j : Json) : String :=
  match j with
  | .null => "null"
  | .bool true => "true"
  | .bool false => "false"
  | .num n => toString n
  | .str s => s
  | .arr _ => ""
  | .obj _ => "[object Object]"

/-- The digit run at the head of the list, as a number (`none` when there is
no digit). -/
def parseDigits (l : List Char) : Option Nat :=
  let ds := l.takeWhile Char.isDigit
  if ds = [] then none
  else some (ds.foldl (fun a c => a * 10 + (c.toNat - 48)) 0)

/-- JS `Number.parseInt(s, 10)`: skip leading whitespace, optional sign,
longest digit run; `none` models `NaN`. -/
def jsParseInt (s : String) : Option Int :=
  match s.data.dropWhile isJsWs with
  | '+' :: t => (parseDigits t).map (fun n => (n : Int))
  | '-' :: t => (parseDigits t).map (fun n => -(n : Int))
  | t => (parseDigits t).map (fun n => (n : Int))

/-- JS `Number.parseInt(s, 10) || d`: the fallback on `NaN` and on `0`. -/
def jsParseIntOr (s : String) (d : Int) : Int :=
  match jsParseInt s with
  | none => d
  | some n => if n = 0 then d else n

/-- JS `s.trim()`. -/
def jsTrim (s : String) : String := ⟨trimL s.data⟩

/-- JS `s.toLowerCase()` (character-wise, see `gtKeyL`). -/
def jsLower (s : String) : String := ⟨s.data.map Char.toLower⟩

/-- How reading the state file can fail; all three cases take the single
`catch` branch of `loadState`. -/
inductive LoadFailure where
  | fileAbsent
  | fileUnreadable
  | invalidJson
deriving DecidableEq

/-- Build one pending entry from its JSON value (part_001 `loadState`). -/
def pendingEntryOfJson (v : Json) (now : Int) : PendingEntry :=
  { gamertag := jsToString (jcoalesce (jfield v "gamertag") (.str ""))
    -- the source stores the bare parseInt result (possibly NaN, never read
    -- back by the pipeline); NaN is collapsed to 0 here
    gamerscore := (jsParseInt (jsToString (jcoalesce (jfield v "gamerscore") (.str "")))).getD 0
    firstSeenMs := jsParseIntOr (jsToString (jcoalesce (jfield v "firstSeenMs") (.str ""))) now
    lastSeenMs := jsParseIntOr (jsToString (jcoalesce (jfield v "lastSeenMs") (.str ""))) now }

/-- Build one all-time entry from its JSON value (part_001 `loadState`). -/
def allTimeEntryOfJson (v : Json) (now : Int) : AllTimeEntry :=
  { gamertag := jsToString (jcoalesce (jfield v "gamertag") (.str ""))
    lastKnownGS := (jsParseInt (jsToString (jcoalesce (jfield v "lastKnownGS") (.str "")))).getD 0
    firstSeenMs := jsParseIntOr (jsToString (jcoalesce (jfield v "firstSeenMs") (.str ""))) now
    lastSeenMs := jsParseIntOr (jsToString (jcoalesce (jfield v "lastSeenMs") (.str ""))) now }

/-- Source `loadState()` (part_001): parse the state file into the aggregate;
any read or parse failure degrades to the empty-but-valid state.  `now` is
`nowMs()` (used for missing timestamps).  Non-string members of the
`checked` array can never equal a string key and are dropped; the `Set`
dedup is not modelled (membership-equivalent). -/
def loadState (input : Except LoadFailure Json) (now : Int) : StateCore :=
  match input with
  | .error _ =>
    { checked := [], pending := [], lastDigestMs := 0, flaggedAll := [], trusted := [] }
  | .ok parsed =>
    let checked : List String :=
      match jfield parsed "checked" with
      | some (.arr xs) => xs.filterMap (fun j => match j with | .str s => some s | _ => none)
      | _ => []
    let pending : List (String × PendingEntry) :=
      match jfield parsed "pending" with
      | some (.obj fields) =>
        fields.foldl (fun m kv =>
          if kv.1 = "" || jsFalsy kv.2 then m
          else alSet m kv.1 (pendingEntryOfJson kv.2 now)) []
      | _ => []
    let lastDigestMs : Int :=
      jsParseIntOr (jsToString (jcoalesce (jfield parsed "lastDigestMs") (.str "0"))) 0
    let flaggedAll : List (String × AllTimeEntry) :=
      match jfield parsed "flaggedAll" with
      | some (.obj fields) =>
        fields.foldl (fun m kv =>
          if kv.1 = "" || jsFalsy kv.2 then m
          else alSet m kv.1 (allTimeEntryOfJson kv.2 now)) []
      | _ => []
    let trusted0 : List (String × Json) :=
      match jfield parsed "trusted" with
      | some (.obj fields) => fields
      | some (.arr xs) =>
        xs.foldl (fun m j =>
          let kk := jsLower (jsTrim (jsToString (jcoalesce (some j) (.str ""))))
          if kk = "" then m
          else alSet m kk (.obj [("gamertag", .str (jsToString j)), ("addedMs", .num now)])) []
      | _ => []
    let trusted : List (String × TrustedEntry) :=
      trusted0.foldl (fun m kv =>
        let kk := jsLower (jsTrim kv.1)
        if kk = "" then m
        else
          let gt := normalizeGamertag (jsToString (jcoalesce (jfield kv.2 "gamertag") (.str "")))
          if gt = "" then m
          else alSet m kk
            { gamertag := gt
              addedMs := jsParseIntOr
                (jsToString (jcoalesce (jfield kv.2 "addedMs") (.str ""))) now }) []
    { checked := checked, pending := pending, lastDigestMs := lastDigestMs,
      flaggedAll := flaggedAll, trusted := trusted }

namespace IndexJs

/-- The persisted aggregate of the `src/index.js` variant:
`{ checked, pending, lastDigestMs }` (no trust list, no all-time list). -/
structure CoreI where
  checked : List String
  pending : List (String × PendingEntry)
  lastDigestMs : Int
deriving DecidableEq

/-- In-memory state of the `src/index.js` variant plus its `saveState`
journal. -/
structure StI where
  core : CoreI
  journal : List CoreI
deriving DecidableEq

/-- `saveState()` of `src/index.js`. -/
def saveState (st : StI) : StI := { st with journal := st.journal ++ [st.core] }

/-- Source `addPendingFlag(profile)` (`src/index.js`): upsert the pending
entry for the canonical key and persist (no trust guard in this variant). -/
def addPendingFlag (st : StI) (profile : FlagProfile) (now : Int) : StI :=
  let k := gtKey profile.gamertag
  if k = "" then st
  else
    let pending2 :=
      match alGet st.core.pending k with
      | none => alSet st.core.pending k
          { gamertag := profile.gamertag, gamerscore := profile.gamerscore.getD 0,
            firstSeenMs := now, lastSeenMs := now }
      | some p => alSet st.core.pending k
          { gamertag := profile.gamertag, gamerscore := profile.gamerscore.getD p.gamerscore,
            firstSeenMs := p.firstSeenMs, lastSeenMs := now }
    saveState { st with core := { st.core with pending := pending2 } }

/-- One iteration of the `while (queue.length)` loop of `processQueue` in
`src/index.js`: the key is marked checked and the state persisted
*immediately on dequeue*, before the resolver call (source comment: "mark
checked immediately"); the `try` around the call then classifies on success
and only logs on any error. -/
def processQueueStep (cfg : Config) (st : StI) (items : List QueueItem) (now : Int)
    (res : FetchOutcome) : StI × List QueueItem :=
  match items with
  | [] => (st, items)
  | item :: rest =>
    if item.k ∈ st.core.checked then (st, rest)
    else
      let st1 := saveState { st with core := { st.core with
          checked := setAdd st.core.checked item.k } }
      match res with
      | .success merged =>
        (match merged.gamerscore with
         | none => (st1, rest)
         | some gs =>
           if gs ≥ cfg.GS_THRESHOLD then (st1, rest)
           else (addPendingFlag st1 { gamertag := merged.gamertag, gamerscore := some gs } now,
                 rest))
      | _ => (st1, rest)

end IndexJs

theorem alGet_cons {β : Type} (x : String × β) (t : List (String × β)) (key : String) :
    alGet (x :: t) key = if x.1 = key then some x.2 else alGet t key := rfl

theorem alGet_eq_none_of_not_has {β : Type} (m : List (String × β)) (k : String)
    (h : alHas m k = false) : alGet m k = none := by
  rw [alHas] at h
  cases he : alGet m k with
  | none => rfl
  | some w => rw [he] at h; simp at h

theorem alGet_append_single_self {β : Type} (m : List (String × β)) (k : String) (v : β)
    (h : alGet m k = none) : alGet (m ++ [(k, v)]) k = some v := by
  induction m with
  | nil => simp [alGet]
  | cons x t ih =>
    rw [alGet_cons] at h
    by_cases hx : x.1 = k
    · rw [if_pos hx] at h; exact absurd h (by simp)
    · rw [if_neg hx] at h
      rw [List.cons_append, alGet_cons, if_neg hx]
      exact ih h

theorem alGet_append_single_ne {β : Type} (m : List (String × β)) (k k2 : String) (v : β)
    (h : k2 ≠ k) : alGet (m ++ [(k, v)]) k2 = alGet m k2 := by
  induction m with
  | nil =>
    show alGet [(k, v)] k2 = none
    rw [alGet_cons, if_neg (fun h2 => h h2.symm)]
    rfl
  | cons x t ih =>
    rw [List.cons_append, alGet_cons, alGet_cons, ih]

theorem alGet_map_update_self {β : Type} (m : List (String × β)) (k : String) (v : β)
    (h : alHas m k = true) :
    alGet (m.map (fun p => if p.1 = k then (k, v) else p)) k = some v := by
  induction m with
  | nil => simp [alHas, alGet] at h
  | cons x t ih =>
    rw [List.map_cons]
    by_cases hx : x.1 = k
    · rw [if_pos hx, alGet_cons, if_pos rfl]
    · rw [if_neg hx, alGet_cons, if_neg hx]
      apply ih
      rw [alHas, alGet_cons, if_neg hx] at h
      exact h

theorem alGet_map_update_ne {β : Type} (m : List (String × β)) (k k2 : String) (v : β)
    (h : k2 ≠ k) :
    alGet (m.map (fun p => if p.1 = k then (k, v) else p)) k2 = alGet m k2 := by
  induction m with
  | nil => rfl
  | cons x t ih =>
    rw [List.map_cons]
    by_cases hx : x.1 = k
    · rw [if_pos hx, alGet_cons, alGet_cons, hx]
      rw [if_neg (fun h2 => h h2.symm), if_neg (fun h2 => h h2.symm)]
      exact ih
    · rw [if_neg hx, alGet_cons, alGet_cons]
      by_cases hx2 : x.1 = k2
      · rw [if_pos hx2, if_pos hx2]
      · rw [if_neg hx2, if_neg hx2]
        exact ih

theorem alGet_alSet_self {β : Type} (m : List (String × β)) (k : String) (v : β) :
    alGet (alSet m k v) k = some v := by
  rw [alSet]
  by_cases h : alHas m k = true
  · rw [if_pos h]
    exact alGet_map_update_self m k v h
  · rw [if_neg h]
    exact alGet_append_single_self m k v
      (alGet_eq_none_of_not_has m k (by simpa using h))

theorem alGet_alSet_ne {β : Type} (m : List (String × β)) (k k2 : String) (v : β)
    (h : k2 ≠ k) : alGet (alSet m k v) k2 = alGet m k2 := by
  rw [alSet]
  by_cases hh : alHas m k = true
  · rw [if_pos hh]
    exact alGet_map_update_ne m k k2 v h
  · rw [if_neg hh]
    exact alGet_append_single_ne m k k2 v h

theorem alGet_alErase_self {β : Type} (m : List (String × β)) (k : String) :
    alGet (alErase m k) k = none := by
  induction m with
  | nil => rfl
  | cons x t ih =>
    rw [alErase] at ih ⊢
    rw [List.filter_cons]
    by_cases hx : x.1 = k
    · rw [show (!(x.1 = k : Bool)) = false by simp [hx]]
      rw [if_neg (by simp)]
      exact ih
    · rw [show (!(x.1 = k : Bool)) = true by simp [hx]]
      rw [if_pos rfl, alGet_cons, if_neg hx]
      exact ih

theorem alGet_alErase_ne {β : Type} (m : List (String × β)) (k k2 : String)
    (h : k2 ≠ k) : alGet (alErase m k) k2 = alGet m k2 := by
  induction m with
  | nil => rfl
  | cons x t ih =>
    rw [alErase] at ih ⊢
    rw [List.filter_cons]
    by_cases hx : x.1 = k
    · rw [show (!(x.1 = k : Bool)) = false by simp [hx]]
      rw [if_neg (by simp)]
      rw [alGet_cons, if_neg (by intro h2; exact h (by rw [← h2]; exact hx))]
      exact ih
    · rw [show (!(x.1 = k : Bool)) = true by simp [hx]]
      rw [if_pos rfl, alGet_cons, alGet_cons]
      by_cases hx2 : x.1 = k2
      · rw [if_pos hx2, if_pos hx2]
      · rw [if_neg hx2, if_neg hx2]
        exact ih

theorem mem_setAdd_self (s : List String) (k : String) : k ∈ setAdd s k := by
  rw [setAdd]
  by_cases h : k ∈ s
  · rw [if_pos h]; exact h
  · rw [if_neg h]; simp

theorem mem_setAdd_iff (s : List String) (k k2 : String) :
    k2 ∈ setAdd s k ↔ k2 ∈ s ∨ k2 = k := by
  rw [setAdd]
  by_cases h : k ∈ s
  · rw [if_pos h]
    constructor
    · exact Or.inl
    · rintro (h2 | h2)
      · exact h2
      · rw [h2]; exact h
  · rw [if_neg h]
    simp

/-- C9: load degradation — for every storage failure (file absent, file
unreadable, or content that is not valid JSON), `loadState` returns the
valid empty state (empty checked set, empty pending map, empty flaggedAll
map, empty trusted map, `lastDigestMs = 0`) rather than raising; being a
total function, it never fails on corrupt state. -/
theorem claim_C9 (e : LoadFailure) (now : Int) :
    loadState (.error e) now =
      { checked := [], pending := [], lastDigestMs := 0, flaggedAll := [], trusted := [] } ∧
    (loadState (.error e) now).checked = [] ∧
    (loadState (.error e) now).pending = [] ∧
    (loadState (.error e) now).flaggedAll = [] ∧
    (loadState (.error e) now).trusted = [] ∧
    (loadState (.error e) now).lastDigestMs = 0 :=
  ⟨rfl, rfl, rfl, rfl, rfl, rfl⟩

theorem classifyMerged_of_none (cfg : Config) (s : St) (m : MergedProfile) (now : Int)
    (hm : m.gamerscore = none) : classifyMerged cfg s m now = s := by
  simp only [classifyMerged, hm]

theorem classifyMerged_of_clean (cfg : Config) (s : St) (m : MergedProfile) (now : Int)
    (gs : Int) (hm : m.gamerscore = some gs) (hgs : gs ≥ cfg.GS_THRESHOLD) :
    classifyMerged cfg s m now = s := by
  simp only [classifyMerged, hm]
  rw [if_pos hgs]

theorem classifyMerged_of_low (cfg : Config) (s : St) (m : MergedProfile) (now : Int)
    (gs : Int) (hm : m.gamerscore = some gs) (hgs : ¬gs ≥ cfg.GS_THRESHOLD) :
    classifyMerged cfg s m now =
      addFlagged s { gamertag := m.gamertag, gamerscore := some gs } now := by
  simp only [classifyMerged, hm]
  rw [if_neg hgs]

theorem addFlagged_of_empty (s : St) (p : FlagProfile) (now : Int)
    (hk : gtKey p.gamertag = "") : addFlagged s p now = s := by
  simp only [addFlagged]
  rw [if_pos hk]

theorem addFlagged_of_trusted (s : St) (p : FlagProfile) (now : Int)
    (hk : gtKey p.gamertag ≠ "") (ht : isTrustedKey s.core (gtKey p.gamertag) = true) :
    addFlagged s p now = s := by
  simp only [addFlagged]
  rw [if_neg hk, if_pos ht]

theorem addFlagged_result (s : St) (p : FlagProfile) (now : Int)
    (hk : gtKey p.gamertag ≠ "") (ht : isTrustedKey s.core (gtKey p.gamertag) = false) :
    addFlagged s p now = saveState { s with core := { s.core with
      pending :=
        match alGet s.core.pending (gtKey p.gamertag) with
        | none => alSet s.core.pending (gtKey p.gamertag)
            { gamertag := p.gamertag, gamerscore := p.gamerscore.getD 0,
              firstSeenMs := now, lastSeenMs := now }
        | some q => alSet s.core.pending (gtKey p.gamertag)
            { gamertag := p.gamertag, gamerscore := p.gamerscore.getD q.gamerscore,
              firstSeenMs := q.firstSeenMs, lastSeenMs := now },
      flaggedAll :=
        match alGet s.core.flaggedAll (gtKey p.gamertag) with
        | none => alSet s.core.flaggedAll (gtKey p.gamertag)
            { gamertag := p.gamertag, lastKnownGS := p.gamerscore.getD 0,
              firstSeenMs := now, lastSeenMs := now }
        | some a => alSet s.core.flaggedAll (gtKey p.gamertag)
            { gamertag := p.gamertag, lastKnownGS := p.gamerscore.getD a.lastKnownGS,
              firstSeenMs := a.firstSeenMs, lastSeenMs := now } } } := by
  simp only [addFlagged]
  rw [if_neg hk, if_neg (by rw [ht]; exact Bool.false_ne_true)]

theorem classifyMerged_checked (cfg : Config) (s : St) (m : MergedProfile) (now : Int) :
    (classifyMerged cfg s m now).core.checked = s.core.checked ∧
    (classifyMerged cfg s m now).cooldownUntilMs = s.cooldownUntilMs ∧
    ∃ tail, (classifyMerged cfg s m now).journal = s.journal ++ tail := by
  cases hm : m.gamerscore with
  | none =>
    rw [classifyMerged_of_none cfg s m now hm]
    exact ⟨rfl, rfl, [], by rw [List.append_nil]⟩
  | some gs =>
    by_cases hgs : gs ≥ cfg.GS_THRESHOLD
    · rw [classifyMerged_of_clean cfg s m now gs hm hgs]
      exact ⟨rfl, rfl, [], by rw [List.append_nil]⟩
    · rw [classifyMerged_of_low cfg s m now gs hm hgs]
      by_cases hk : gtKey m.gamertag = ""
      · rw [addFlagged_of_empty _ _ _ hk]
        exact ⟨rfl, rfl, [], by rw [List.append_nil]⟩
      · by_cases ht : isTrustedKey s.core (gtKey m.gamertag) = true
        · rw [addFlagged_of_trusted _ _ _ hk ht]
          exact ⟨rfl, rfl, [], by rw [List.append_nil]⟩
        · rw [addFlagged_result _ _ _ hk (by simpa using ht)]
          exact ⟨rfl, rfl, _, rfl⟩

/-- What the part_001 worker step guarantees about `CheckedSet` for the head
item, by resolver outcome: a rate limit or any other failure leaves the
checked set and the persistence journal untouched; a success adds the item's
key and the first snapshot persisted afterwards already contains it. -/
def WorkerMarksOnlyOnSuccess (cfg : Config) (st : St) (q : WorkQueue) (now : Int)
    (item : QueueItem) : Prop :=
  (∀ ra, (processQueueStep cfg st q now (.rateLimited ra)).1.core.checked = st.core.checked ∧
    (processQueueStep cfg st q now (.rateLimited ra)).1.journal = st.journal) ∧
  ((processQueueStep cfg st q now .failure).1 = st) ∧
  (∀ merged,
    item.k ∈ (processQueueStep cfg st q now (.success merged)).1.core.checked ∧
    ∃ tail, (processQueueStep cfg st q now (.success merged)).1.journal =
      st.journal ++ ({ st.core with checked := setAdd st.core.checked item.k } :: tail) ∧
      item.k ∈ setAdd st.core.checked item.k)

/-- C1 (amended): in the part_001 worker, a key is added to CheckedSet only
after a successful external round trip — for the queue's head item, if the
resolver call throws (rate limit or any other failure) the checked set and
the journal are untouched afterwards, and the key is added and the state
persisted exactly when `fetchOpenXblMergedProfile` returns successfully.
(The older `src/index.js` worker instead marks the key checked immediately
upon dequeue, before the resolver call — see the counterexample.) -/
theorem claim_C1 (cfg : Config) (st : St) (q : WorkQueue) (now : Int)
    (item : QueueItem) (rest : List QueueItem)
    (hq : q.items = item :: rest)
    (hnc : item.k ∉ st.core.checked)
    (hnt : isTrustedKey st.core item.k = false) :
    WorkerMarksOnlyOnSuccess cfg st q now item := by
  obtain ⟨items, keys⟩ := q
  simp only at hq
  subst hq
  refine ⟨?_, ?_, ?_⟩
  · intro ra
    constructor
    · simp only [processQueueStep, hnt, Bool.false_eq_true, if_false, if_neg hnc]
    · simp only [processQueueStep, hnt, Bool.false_eq_true, if_false, if_neg hnc]
  · simp only [processQueueStep, hnt, Bool.false_eq_true, if_false, if_neg hnc]
  · intro merged
    simp only [processQueueStep, hnt, Bool.false_eq_true, if_false, if_neg hnc]
    obtain ⟨hch, _, tail, hj⟩ := classifyMerged_checked cfg
      (saveState { st with core := { st.core with checked := setAdd st.core.checked item.k } })
      merged now
    constructor
    · rw [hch]
      exact mem_setAdd_self _ _
    · refine ⟨tail, ?_, mem_setAdd_self _ _⟩
      rw [hj]
      rw [saveState]
      simp only [List.append_assoc]
      rfl

/-- C1 witness: a fresh untrusted key at the head of the queue. -/
theorem claim_C1_witness :
    ("foo" : String) ∉ (⟨⟨[], [], 0, [], []⟩, [], 0⟩ : St).core.checked ∧
    isTrustedKey (⟨⟨[], [], 0, [], []⟩, [], 0⟩ : St).core "foo" = false ∧
    WorkerMarksOnlyOnSuccess defaultConfig ⟨⟨[], [], 0, [], []⟩, [], 0⟩
      ⟨[⟨"Foo", "foo"⟩], ["foo"]⟩ 5 ⟨"Foo", "foo"⟩ :=
  ⟨by decide, by decide,
   claim_C1 defaultConfig _ _ 5 ⟨"Foo", "foo"⟩ [] rfl (by decide) (by decide)⟩

/-- C1 counterexample: in the `src/index.js` worker cited by the claim, the
resolver call throws (`failure`), yet the item's key is in CheckedSet
afterwards — it was added (and the state persisted) before the call. -/
theorem claim_C1_counterexample :
    (IndexJs.processQueueStep defaultConfig ⟨⟨[], [], 0⟩, []⟩
      [⟨"Foo Bar", "foo bar"⟩] 5 .failure).1.core.checked = ["foo bar"] ∧
    "foo bar" ∈ (IndexJs.processQueueStep defaultConfig ⟨⟨[], [], 0⟩, []⟩
      [⟨"Foo Bar", "foo bar"⟩] 5 .failure).1.core.checked ∧
    (IndexJs.processQueueStep defaultConfig ⟨⟨[], [], 0⟩, []⟩
      [⟨"Foo Bar", "foo bar"⟩] 5 .failure).1.journal = [⟨["foo bar"], [], 0⟩] :=
  ⟨by decide, by decide, by decide⟩

theorem enqueue_noop (c : StateCore) (q : WorkQueue) (gt : String)
    (h : gtKey gt = "" ∨ isTrustedKey c (gtKey gt) = true ∨ gtKey gt ∈ c.checked ∨
      gtKey gt ∈ q.queuedKeys) :
    enqueueGamertag c q gt = q := by
  simp only [enqueueGamertag, gtKey_normalizeGamertag]
  split_ifs with h1 h2 h3 h4
  · rfl
  · rfl
  · rfl
  · rfl
  · exfalso
    rcases h with h | h | h | h
    · exact h1 h
    · exact h2 h
    · exact h3 h
    · exact h4 h

theorem enqueue_result (c : StateCore) (q : WorkQueue) (gt : String) :
    enqueueGamertag c q gt = q ∨
    (gtKey gt ∉ q.queuedKeys ∧
     enqueueGamertag c q gt =
       { items := q.items ++ [{ gt := normalizeGamertag gt, k := gtKey gt }],
         queuedKeys := q.queuedKeys ++ [gtKey gt] }) := by
  simp only [enqueueGamertag, gtKey_normalizeGamertag]
  split_ifs with h1 h2 h3 h4
  · exact Or.inl rfl
  · exact Or.inl rfl
  · exact Or.inl rfl
  · exact Or.inl rfl
  · exact Or.inr ⟨h4, rfl⟩

/-- Number of queue items whose canonical key is `k`. -/
def countKey (k : String) (items : List QueueItem) : Nat :=
  items.countP (fun it => (it.k = k : Bool))

theorem countKey_append_single (k : String) (items : List QueueItem) (it : QueueItem) :
    countKey k (items ++ [it]) = countKey k items + (if it.k = k then 1 else 0) := by
  rw [countKey, countKey, List.countP_append]
  congr 1
  by_cases h : it.k = k
  · rw [if_pos h]
    simp [List.countP_cons, h]
  · rw [if_neg h]
    simp [List.countP_cons, h]

/-- The admission guarantees of the part_001 dedup/enqueue gate. -/
def EnqueueGateSpec (c : StateCore) (q : WorkQueue) (gt gt2 : String) : Prop :=
  (gtKey gt = "" → enqueueGamertag c q gt = q) ∧
  (isTrustedKey c (gtKey gt) = true → enqueueGamertag c q gt = q) ∧
  (gtKey gt ∈ c.checked → enqueueGamertag c q gt = q) ∧
  (gtKey gt ∈ q.queuedKeys → enqueueGamertag c q gt = q) ∧
  (gtKey gt2 = gtKey gt →
    countKey (gtKey gt) (enqueueGamertag c (enqueueGamertag c q gt) gt2).items ≤
      countKey (gtKey gt) q.items + 1) ∧
  (gtKey gt2 = gtKey gt → countKey (gtKey gt) q.items = 0 →
    countKey (gtKey gt) (enqueueGamertag c (enqueueGamertag c q gt) gt2).items ≤ 1)

theorem enqueue_double_count (c : StateCore) (q : WorkQueue) (gt gt2 : String)
    (hk2 : gtKey gt2 = gtKey gt) :
    countKey (gtKey gt) (enqueueGamertag c (enqueueGamertag c q gt) gt2).items ≤
      countKey (gtKey gt) q.items + 1 := by
  rcases enqueue_result c q gt with h1 | ⟨hq1, h1⟩
  · rw [h1]
    rcases enqueue_result c q gt2 with h2 | ⟨hq2, h2⟩
    · rw [h2]
      omega
    · rw [h2]
      simp only
      rw [countKey_append_single]
      rw [hk2, if_pos rfl]
  · rw [h1]
    have h2 : enqueueGamertag c
        { items := q.items ++ [{ gt := normalizeGamertag gt, k := gtKey gt }],
          queuedKeys := q.queuedKeys ++ [gtKey gt] } gt2 =
        { items := q.items ++ [{ gt := normalizeGamertag gt, k := gtKey gt }],
          queuedKeys := q.queuedKeys ++ [gtKey gt] } := by
      apply enqueue_noop
      right; right; right
      rw [hk2]
      simp
    rw [h2]
    simp only
    rw [countKey_append_single]
    rw [if_pos rfl]

/-- C2: the enqueue gate allows at most one outstanding attempt per canonical
key and no re-attempts after a success — offering a raw handle is a no-op
when its key is empty, trusted, already in CheckedSet, or already in
`queuedKeys`; two offers of the same key enqueue at most one new item; and
any offer after the key enters CheckedSet is rejected. -/
theorem claim_C2 (c : StateCore) (q : WorkQueue) (gt gt2 : String) :
    EnqueueGateSpec c q gt gt2 := by
  refine ⟨fun h => enqueue_noop c q gt (Or.inl h),
    fun h => enqueue_noop c q gt (Or.inr (Or.inl h)),
    fun h => enqueue_noop c q gt (Or.inr (Or.inr (Or.inl h))),
    fun h => enqueue_noop c q gt (Or.inr (Or.inr (Or.inr h))),
    fun hk2 => enqueue_double_count c q gt gt2 hk2,
    fun hk2 h0 => ?_⟩
  have := enqueue_double_count c q gt gt2 hk2
  omega

/-- C2 witness: two offers of differently-spelled raw handles with the same
canonical key on an empty queue enqueue exactly one item; an offer of an
already-checked key is rejected. -/
theorem claim_C2_witness :
    gtKey "FOO  bar" = gtKey " Foo Bar " ∧
    EnqueueGateSpec ⟨["done"], [], 0, [], []⟩ ⟨[], []⟩ " Foo Bar " "FOO  bar" :=
  ⟨by decide, claim_C2 ⟨["done"], [], 0, [], []⟩ ⟨[], []⟩ " Foo Bar " "FOO  bar"⟩

/-- The low-score upsert performed by the classifier: the pending and
all-time entries at the profile's key are created (with
`firstSeenMs = lastSeenMs = now`) or updated (display handle, score,
`lastSeenMs = now`, `firstSeenMs` kept), all other keys and all other state
fields are unchanged, and the state is persisted. -/
def ClassifierUpsertSpec (cfg : Config) (st : St) (merged : MergedProfile) (gs now : Int) :
    Prop :=
  alGet (classifyMerged cfg st merged now).core.pending (gtKey merged.gamertag) =
    some (match alGet st.core.pending (gtKey merged.gamertag) with
      | none => { gamertag := merged.gamertag, gamerscore := gs,
                  firstSeenMs := now, lastSeenMs := now }
      | some p => { gamertag := merged.gamertag, gamerscore := gs,
                    firstSeenMs := p.firstSeenMs, lastSeenMs := now }) ∧
  alGet (classifyMerged cfg st merged now).core.flaggedAll (gtKey merged.gamertag) =
    some (match alGet st.core.flaggedAll (gtKey merged.gamertag) with
      | none => { gamertag := merged.gamertag, lastKnownGS := gs,
                  firstSeenMs := now, lastSeenMs := now }
      | some a => { gamertag := merged.gamertag, lastKnownGS := gs,
                    firstSeenMs := a.firstSeenMs, lastSeenMs := now }) ∧
  (∀ k2, k2 ≠ gtKey merged.gamertag →
    alGet (classifyMerged cfg st merged now).core.pending k2 = alGet st.core.pending k2 ∧
    alGet (classifyMerged cfg st merged now).core.flaggedAll k2 = alGet st.core.flaggedAll k2) ∧
  (classifyMerged cfg st merged now).core.checked = st.core.checked ∧
  (classifyMerged cfg st merged now).core.lastDigestMs = st.core.lastDigestMs ∧
  (classifyMerged cfg st merged now).core.trusted = st.core.trusted ∧
  (classifyMerged cfg st merged now).cooldownUntilMs = st.cooldownUntilMs ∧
  (classifyMerged cfg st merged now).journal =
    st.journal ++ [(classifyMerged cfg st merged now).core]

/-- The classifier's case analysis: trusted keys and unknown or clean scores
change nothing; a low score on a non-trusted, non-empty key performs the
upsert and persists. -/
def ClassifierPostconditions (cfg : Config) (st : St) (merged : MergedProfile) (now : Int) :
    Prop :=
  (isTrustedKey st.core (gtKey merged.gamertag) = true → classifyMerged cfg st merged now = st) ∧
  (merged.gamerscore = none → classifyMerged cfg st merged now = st) ∧
  (∀ gs, merged.gamerscore = some gs → gs ≥ cfg.GS_THRESHOLD →
    classifyMerged cfg st merged now = st) ∧
  (∀ gs, merged.gamerscore = some gs → gs < cfg.GS_THRESHOLD →
    isTrustedKey st.core (gtKey merged.gamertag) = false → gtKey merged.gamertag ≠ "" →
    ClassifierUpsertSpec cfg st merged gs now)

/-- C3 (amended): classifier postconditions — trusted key, unknown score, or
score at or above the threshold leave the state unchanged; a score below the
threshold upserts both the pending and the all-time flagged maps for the
profile's canonical key and persists, provided that key is non-empty (the
source's `if (!k) return` guard, which the original claim omits, makes the
empty-key case a no-op). -/
theorem claim_C3 (cfg : Config) (st : St) (merged : MergedProfile) (now : Int) :
    ClassifierPostconditions cfg st merged now := by
  refine ⟨?_, ?_, ?_, ?_⟩
  · intro ht
    cases hm : merged.gamerscore with
    | none => exact classifyMerged_of_none cfg st merged now hm
    | some gs =>
      by_cases hgs : gs ≥ cfg.GS_THRESHOLD
      · exact classifyMerged_of_clean cfg st merged now gs hm hgs
      · rw [classifyMerged_of_low cfg st merged now gs hm hgs]
        by_cases hk : gtKey merged.gamertag = ""
        · exact addFlagged_of_empty _ _ _ hk
        · exact addFlagged_of_trusted _ _ _ hk ht
  · intro hm
    exact classifyMerged_of_none cfg st merged now hm
  · intro gs hm hgs
    exact classifyMerged_of_clean cfg st merged now gs hm hgs
  · intro gs hm hgs ht hk
    have hlow := classifyMerged_of_low cfg st merged now gs hm (not_le.mpr hgs)
    have hres := addFlagged_result st { gamertag := merged.gamertag, gamerscore := some gs }
      now hk ht
    rw [ClassifierUpsertSpec, hlow, hres]
    simp only [saveState]
    refine ⟨?_, ?_, ?_, by trivial, by trivial, by trivial, by trivial, by trivial⟩
    · cases hp : alGet st.core.pending (gtKey merged.gamertag) with
      | none =>
        simp only [hp]
        exact alGet_alSet_self _ _ _
      | some p =>
        simp only [hp]
        exact alGet_alSet_self _ _ _
    · cases ha : alGet st.core.flaggedAll (gtKey merged.gamertag) with
      | none =>
        simp only [ha]
        exact alGet_alSet_self _ _ _
      | some a =>
        simp only [ha]
        exact alGet_alSet_self _ _ _
    · intro k2 hk2
      constructor
      · cases hp : alGet st.core.pending (gtKey merged.gamertag) with
        | none => simp only [hp]; exact alGet_alSet_ne _ _ _ _ hk2
        | some p => simp only [hp]; exact alGet_alSet_ne _ _ _ _ hk2
      · cases ha : alGet st.core.flaggedAll (gtKey merged.gamertag) with
        | none => simp only [ha]; exact alGet_alSet_ne _ _ _ _ hk2
        | some a => simp only [ha]; exact alGet_alSet_ne _ _ _ _ hk2

/-- C3 witness: a low score on a fresh untrusted handle. -/
theorem claim_C3_witness :
    gtKey "Foo Bar" ≠ "" ∧
    ClassifierPostconditions defaultConfig
      ⟨⟨[], [("foo bar", ⟨"foo Bar", 300, 1, 2⟩)], 0, [], []⟩, [], 0⟩
      ⟨"Foo Bar", some 100⟩ 7 :=
  ⟨by decide, claim_C3 defaultConfig _ ⟨"Foo Bar", some 100⟩ 7⟩

/-- C3 counterexample: a resolved profile whose display handle canonicalizes
to the empty key, with score 0 below the threshold and not trusted — the
claim requires an upsert of both maps for that key, but the source's
empty-key guard leaves the state entirely unchanged. -/
theorem claim_C3_counterexample :
    (0 : Int) < defaultConfig.GS_THRESHOLD ∧
    gtKey " " = "" ∧
    isTrustedKey (⟨⟨[], [], 0, [], []⟩, [], 0⟩ : St).core (gtKey " ") = false ∧
    classifyMerged defaultConfig ⟨⟨[], [], 0, [], []⟩, [], 0⟩ ⟨" ", some 0⟩ 7 =
      ⟨⟨[], [], 0, [], []⟩, [], 0⟩ ∧
    alGet (classifyMerged defaultConfig ⟨⟨[], [], 0, [], []⟩, [], 0⟩
      ⟨" ", some 0⟩ 7).core.pending (gtKey " ") = none :=
  ⟨by decide, by decide, by decide, by decide, by decide⟩

/-- Trust is retroactive and untrust does not resurrect: `trustGamertag`
upserts the trusted entry with the current timestamp, deletes the pending
and all-time entries for the key (other keys untouched), and persists;
`untrustGamertag` removes only the trusted entry, leaving pending and
all-time maps unchanged, and persists. -/
def TrustRetroactiveSpec (st : St) (gt : String) (now : Int) : Prop :=
  alGet (trustGamertag st gt now).1.core.trusted (gtKey gt) =
    some { gamertag := normalizeGamertag gt, addedMs := now } ∧
  alGet (trustGamertag st gt now).1.core.pending (gtKey gt) = none ∧
  alGet (trustGamertag st gt now).1.core.flaggedAll (gtKey gt) = none ∧
  (∀ k2, k2 ≠ gtKey gt →
    alGet (trustGamertag st gt now).1.core.trusted k2 = alGet st.core.trusted k2 ∧
    alGet (trustGamertag st gt now).1.core.pending k2 = alGet st.core.pending k2 ∧
    alGet (trustGamertag st gt now).1.core.flaggedAll k2 = alGet st.core.flaggedAll k2) ∧
  (trustGamertag st gt now).1.core.checked = st.core.checked ∧
  (trustGamertag st gt now).1.core.lastDigestMs = st.core.lastDigestMs ∧
  (trustGamertag st gt now).1.journal = st.journal ++ [(trustGamertag st gt now).1.core] ∧
  (trustGamertag st gt now).2 = { ok := true, display := normalizeGamertag gt } ∧
  alGet (untrustGamertag st gt).1.core.trusted (gtKey gt) = none ∧
  (∀ k2, k2 ≠ gtKey gt →
    alGet (untrustGamertag st gt).1.core.trusted k2 = alGet st.core.trusted k2) ∧
  (untrustGamertag st gt).1.core.pending = st.core.pending ∧
  (untrustGamertag st gt).1.core.flaggedAll = st.core.flaggedAll ∧
  (untrustGamertag st gt).1.core.checked = st.core.checked ∧
  (untrustGamertag st gt).1.core.lastDigestMs = st.core.lastDigestMs ∧
  (untrustGamertag st gt).1.journal = st.journal ++ [(untrustGamertag st gt).1.core]

/-- C4: for every raw handle with a non-empty canonical key, `trust` upserts
a TrustedEntry with the current timestamp, deletes any PendingEntry and any
AllTimeEntry for that key, and persists; `untrust` removes only the
TrustedEntry, leaving the pending and all-time maps unchanged (prior flags
are not restored), and persists. -/
theorem claim_C4 (st : St) (gt : String) (now : Int) (hk : gtKey gt ≠ "") :
    TrustRetroactiveSpec st gt now := by
  have hg : gtKey (normalizeGamertag gt) = gtKey gt := gtKey_normalizeGamertag gt
  have htrust : trustGamertag st gt now =
      (saveState { st with core := { st.core with
          trusted := alSet st.core.trusted (gtKey gt)
            { gamertag := normalizeGamertag gt, addedMs := now },
          pending := alErase st.core.pending (gtKey gt),
          flaggedAll := alErase st.core.flaggedAll (gtKey gt) } },
       { ok := true, display := normalizeGamertag gt }) := by
    simp only [trustGamertag, hg]
    rw [if_neg hk]
  have huntrust : untrustGamertag st gt =
      (saveState { st with core := { st.core with
          trusted := alErase st.core.trusted (gtKey gt) } },
       { ok := true, display :=
          match alGet st.core.trusted (gtKey gt) with
          | some te => if te.gamertag = "" then normalizeGamertag gt else te.gamertag
          | none => normalizeGamertag gt }) := by
    simp only [untrustGamertag, hg]
    rw [if_neg hk]
  rw [TrustRetroactiveSpec, htrust, huntrust]
  refine ⟨alGet_alSet_self _ _ _, alGet_alErase_self _ _, alGet_alErase_self _ _,
    ?_, rfl, rfl, rfl, rfl, alGet_alErase_self _ _, ?_, rfl, rfl, rfl, rfl, rfl⟩
  · intro k2 hk2
    exact ⟨alGet_alSet_ne _ _ _ _ hk2, alGet_alErase_ne _ _ _ hk2, alGet_alErase_ne _ _ _ hk2⟩
  · intro k2 hk2
    exact alGet_alErase_ne _ _ _ hk2

/-- C4 witness: trusting a handle that is both pending and all-time flagged
removes both entries; untrusting leaves them removed. -/
theorem claim_C4_witness :
    gtKey " Foo  Bar " ≠ "" ∧
    TrustRetroactiveSpec
      ⟨⟨["x"], [("foo bar", ⟨"Foo Bar", 100, 1, 2⟩), ("other", ⟨"Other", 5, 3, 4⟩)], 9,
        [("foo bar", ⟨"Foo Bar", 100, 1, 2⟩)], [("old", ⟨"Old", 8⟩)]⟩, [], 0⟩
      " Foo  Bar " 42 :=
  ⟨by decide, claim_C4 _ " Foo  Bar " 42 (by decide)⟩

theorem sendDigest_skip (cfg : Config) (st : St) (now : Int) (channelOk : Bool)
    (hcfg : cfg.digestChannelConfigured = true)
    (hskip : st.core.lastDigestMs ≠ 0 ∧
      now - st.core.lastDigestMs < cfg.DIGEST_INTERVAL_HOURS * 60 * 60 * 1000) :
    sendDigestIfDue cfg st now channelOk = (st, []) := by
  simp only [sendDigestIfDue, hcfg, Bool.not_true, Bool.false_eq_true, if_false]
  rw [if_pos hskip]

theorem sendDigest_fires (cfg : Config) (st : St) (now : Int)
    (hcfg : cfg.digestChannelConfigured = true)
    (hskip : ¬(st.core.lastDigestMs ≠ 0 ∧
      now - st.core.lastDigestMs < cfg.DIGEST_INTERVAL_HOURS * 60 * 60 * 1000)) :
    sendDigestIfDue cfg st now true =
      if digestSelection cfg st.core now = []
      then (saveState { st with core := { st.core with lastDigestMs := now, pending := [] } },
            [])
      else (saveState { st with core := { st.core with lastDigestMs := now, pending := [] } },
            chunkLines ((digestSelection cfg st.core now).map (fun kv => kv.2.gamertag))
              3500) := by
  simp only [sendDigestIfDue, hcfg, Bool.not_true, Bool.false_eq_true, if_false]
  rw [if_neg hskip]

/-- The empty-window digest contract: when due with an empty selection, the
scheduler still stamps `lastDigestMs = now`, clears the whole pending map,
persists, sends nothing — and (for a nonzero clock) the same window is not
due again before another full interval elapses. -/
def EmptyWindowDigestSpec (cfg : Config) (st : St) (now : Int) : Prop :=
  (sendDigestIfDue cfg st now true).1.core.lastDigestMs = now ∧
  (sendDigestIfDue cfg st now true).1.core.pending = [] ∧
  (sendDigestIfDue cfg st now true).2 = [] ∧
  (sendDigestIfDue cfg st now true).1.journal =
    st.journal ++ [(sendDigestIfDue cfg st now true).1.core] ∧
  (now ≠ 0 → ∀ (now2 : Int) (chOk : Bool),
    now2 - now < cfg.DIGEST_INTERVAL_HOURS * 60 * 60 * 1000 →
    sendDigestIfDue cfg (sendDigestIfDue cfg st now true).1 now2 chOk =
      ((sendDigestIfDue cfg st now true).1, []))

/-- C6 (amended): empty-window digest — whenever the digest is due
(`lastDigestMs = 0`, or a full interval has elapsed), the selected window is
empty, and the digest channel fetch succeeds, the scheduler still sets
`lastDigestMs = now`, clears the entire pending map, and persists, so the
same empty window is not due again on the next tick.  The channel condition
is necessary: the source returns from a failed channel fetch before the
empty-window stamp and clear — see the counterexample. -/
theorem claim_C6 (cfg : Config) (st : St) (now : Int)
    (hcfg : cfg.digestChannelConfigured = true)
    (hdue : st.core.lastDigestMs = 0 ∨
      cfg.DIGEST_INTERVAL_HOURS * 60 * 60 * 1000 ≤ now - st.core.lastDigestMs)
    (hempty : digestSelection cfg st.core now = []) :
    EmptyWindowDigestSpec cfg st now := by
  have hskip : ¬(st.core.lastDigestMs ≠ 0 ∧
      now - st.core.lastDigestMs < cfg.DIGEST_INTERVAL_HOURS * 60 * 60 * 1000) := by
    rintro ⟨h1, h2⟩
    rcases hdue with h | h
    · exact h1 h
    · exact absurd h2 (not_lt.mpr h)
  have hfire := sendDigest_fires cfg st now hcfg hskip
  rw [if_pos hempty] at hfire
  rw [EmptyWindowDigestSpec, hfire]
  refine ⟨rfl, rfl, rfl, rfl, ?_⟩
  intro hnow0 now2 chOk hlt
  exact sendDigest_skip cfg _ now2 chOk hcfg ⟨hnow0, hlt⟩

/-- C6 witness: a due digest over a pending map whose only entry is outside
any window (pending empty), at a nonzero clock. -/
theorem claim_C6_witness :
    defaultConfig.digestChannelConfigured = true ∧
    ((⟨⟨["k"], [], 0, [], []⟩, [], 0⟩ : St).core.lastDigestMs = 0 ∨
      defaultConfig.DIGEST_INTERVAL_HOURS * 60 * 60 * 1000 ≤
        1000 - (⟨⟨["k"], [], 0, [], []⟩, [], 0⟩ : St).core.lastDigestMs) ∧
    digestSelection defaultConfig (⟨⟨["k"], [], 0, [], []⟩, [], 0⟩ : St).core 1000 = [] ∧
    EmptyWindowDigestSpec defaultConfig ⟨⟨["k"], [], 0, [], []⟩, [], 0⟩ 1000 :=
  ⟨by decide, by decide, by decide,
   claim_C6 defaultConfig _ 1000 (by decide) (by decide) (by decide)⟩

/-- C6 counterexample: a due digest (a full interval has elapsed since
`lastDigestMs = 10`) whose selected window is empty (the only pending entry
was last seen before the cutoff), invoked while the digest channel fetch
fails — the scheduler returns before the empty-window branch, so contrary to
the claim `lastDigestMs` is not advanced, the pending map is not cleared,
and nothing is persisted. -/
theorem claim_C6_counterexample :
    defaultConfig.DIGEST_INTERVAL_HOURS * 60 * 60 * 1000 ≤ (3700000 : Int) - 10 ∧
    digestSelection defaultConfig
      (⟨⟨[], [("beta", ⟨"Beta", 200, 1, 5⟩)], 10, [], []⟩, [], 0⟩ : St).core 3700000 = [] ∧
    sendDigestIfDue defaultConfig ⟨⟨[], [("beta", ⟨"Beta", 200, 1, 5⟩)], 10, [], []⟩, [], 0⟩
      3700000 false =
      (⟨⟨[], [("beta", ⟨"Beta", 200, 1, 5⟩)], 10, [], []⟩, [], 0⟩, []) ∧
    (sendDigestIfDue defaultConfig ⟨⟨[], [("beta", ⟨"Beta", 200, 1, 5⟩)], 10, [], []⟩, [], 0⟩
      3700000 false).1.core.lastDigestMs = 10 ∧
    ((10 : Int) = 3700000 → False) ∧
    (sendDigestIfDue defaultConfig ⟨⟨[], [("beta", ⟨"Beta", 200, 1, 5⟩)], 10, [], []⟩, [], 0⟩
      3700000 false).1.core.pending = [("beta", ⟨"Beta", 200, 1, 5⟩)] ∧
    (sendDigestIfDue defaultConfig ⟨⟨[], [("beta", ⟨"Beta", 200, 1, 5⟩)], 10, [], []⟩, [], 0⟩
      3700000 false).1.journal = [] :=
  ⟨by decide, by decide, by decide, by decide, by decide, by decide, by decide⟩

/-- The combined window predicate of the digest selection: not trusted and
last seen at or after the cutoff. -/
def digestKeep (c : StateCore) (cutoff : Int) (kv : String × PendingEntry) : Bool :=
  (!(isTrustedKey c kv.1)) && decide (kv.2.lastSeenMs ≥ cutoff)

theorem digestSelection_eq (cfg : Config) (c : StateCore) (now : Int)
    (h0 : c.lastDigestMs ≠ 0) :
    digestSelection cfg c now =
      insSort (fun a b => lexLe a.2.gamertag b.2.gamertag)
        (c.pending.filter (digestKeep c c.lastDigestMs)) := by
  simp only [digestSelection]
  rw [if_pos h0, List.filter_filter]
  rfl

theorem count_gamertag_filter (P : String × PendingEntry → Bool)
    (kv : String × PendingEntry) :
    ∀ (l : List (String × PendingEntry)), kv ∈ l →
    (l.map Prod.fst).Nodup →
    (∀ x ∈ l, gtKey x.2.gamertag = x.1) →
    ((l.filter P).map (fun x => x.2.gamertag)).count kv.2.gamertag
      = if P kv = true then 1 else 0 := by
  intro l
  induction l with
  | nil => intro h; exact absurd h (List.not_mem_nil kv)
  | cons x t ih =>
    intro hkv hnodup hcons
    have hnodup2 : (x.1 :: t.map Prod.fst).Nodup := by simpa using hnodup
    have hnd := List.nodup_cons.mp hnodup2
    have hconsx : gtKey x.2.gamertag = x.1 := hcons x (List.mem_cons.mpr (Or.inl rfl))
    have hconst : ∀ y ∈ t, gtKey y.2.gamertag = y.1 := by
      intro y hy; exact hcons y (List.mem_cons.mpr (Or.inr hy))
    rcases List.mem_cons.mp hkv with hx | hx
    · subst hx
      have hzero : ((t.filter P).map (fun x => x.2.gamertag)).count kv.2.gamertag = 0 := by
        rw [List.count_eq_zero]
        intro hmem
        obtain ⟨y, hy, hgy⟩ := List.mem_map.mp hmem
        have hyt : y ∈ t := List.mem_of_mem_filter hy
        have hy1 : y.1 = kv.1 := by
          rw [← hconst y hyt, ← hconsx, hgy]
        apply hnd.1
        rw [← hy1]
        exact List.mem_map.mpr ⟨y, hyt, rfl⟩
      rw [List.filter_cons]
      by_cases hP : P kv = true
      · rw [if_pos hP, List.map_cons, List.count_cons_self, hzero, if_pos hP]
      · rw [if_neg hP, hzero, if_neg hP]
    · have hne : kv.2.gamertag ≠ x.2.gamertag := by
        intro he
        apply hnd.1
        have : x.1 = kv.1 := by rw [← hconsx, ← hconst kv hx, he]
        rw [this]
        exact List.mem_map.mpr ⟨kv, hx, rfl⟩
      rw [List.filter_cons]
      by_cases hP : P x = true
      · rw [if_pos hP, List.map_cons, List.count_cons_of_ne hne]
        exact ih hx hnd.2 hconst
      · rw [if_neg hP]
        exact ih hx hnd.2 hconst

/-- The digest window contract: after a due digest fires from
`lastDigestMs = T0`, the pending map is empty, `lastDigestMs` is advanced to
the send time, and the rendered pages — whose lines partition into the
blocks shown — exclude every pending entry last seen before `T0` and contain
every non-trusted pending entry last seen at or after `T0` exactly once. -/
def DigestWindowSpec (cfg : Config) (st : St) (now T0 : Int) : Prop :=
  (sendDigestIfDue cfg st now true).1.core.pending = [] ∧
  (sendDigestIfDue cfg st now true).1.core.lastDigestMs = now ∧
  ∃ blocks : List (List String),
    (sendDigestIfDue cfg st now true).2 = blocks.map joinNl ∧
    (∀ b ∈ blocks, b ≠ []) ∧
    ∀ kv ∈ st.core.pending,
      (kv.2.lastSeenMs < T0 → blocks.flatten.count kv.2.gamertag = 0) ∧
      (T0 ≤ kv.2.lastSeenMs → isTrustedKey st.core kv.1 = false →
        blocks.flatten.count kv.2.gamertag = 1)

/-- C5: digest window correctness — when a digest fires with
`lastDigestMs = T0 > 0`, every pending entry with `lastSeenMs < T0` is
excluded from the rendered output even though it is in the pending map,
every non-trusted pending entry with `lastSeenMs >= T0` appears exactly once
across the pages, and afterwards the pending map is empty and
`lastDigestMs` is advanced to the send time.  The pending map is assumed
well-formed as the pipeline maintains it: distinct keys, each entry stored
under the canonical key of its display handle, keys non-empty, handles
within the page budget. -/
theorem claim_C5 (cfg : Config) (st : St) (now T0 : Int)
    (hcfg : cfg.digestChannelConfigured = true)
    (hT0 : st.core.lastDigestMs = T0)
    (hpos : 0 < T0)
    (hdue : cfg.DIGEST_INTERVAL_HOURS * 60 * 60 * 1000 ≤ now - T0)
    (hnodup : (st.core.pending.map Prod.fst).Nodup)
    (hwf : ∀ kv ∈ st.core.pending,
      gtKey kv.2.gamertag = kv.1 ∧ kv.1 ≠ "" ∧ kv.2.gamertag.length ≤ 3500) :
    DigestWindowSpec cfg st now T0 := by
  have hne0 : st.core.lastDigestMs ≠ 0 := by rw [hT0]; exact ne_of_gt hpos
  have hskip : ¬(st.core.lastDigestMs ≠ 0 ∧
      now - st.core.lastDigestMs < cfg.DIGEST_INTERVAL_HOURS * 60 * 60 * 1000) := by
    rintro ⟨_, h2⟩
    rw [hT0] at h2
    exact absurd h2 (not_lt.mpr hdue)
  have hfire := sendDigest_fires cfg st now hcfg hskip
  have hsel := digestSelection_eq cfg st.core now hne0
  rw [hT0] at hsel
  have hP := fun kv (hkv : kv ∈ st.core.pending) =>
    count_gamertag_filter (digestKeep st.core T0) kv st.core.pending hkv hnodup
      (fun x hx => (hwf x hx).1)
  by_cases hi : digestSelection cfg st.core now = []
  · rw [DigestWindowSpec, hfire, if_pos hi]
    refine ⟨rfl, rfl, [], rfl, by simp, ?_⟩
    intro kv hkv
    have hfilter_nil : st.core.pending.filter (digestKeep st.core T0) = [] := by
      have hperm := insSort_perm (fun a b => lexLe a.2.gamertag b.2.gamertag)
        (st.core.pending.filter (digestKeep st.core T0))
      rw [hsel] at hi
      have hlen := hperm.length_eq
      rw [hi] at hlen
      exact List.length_eq_zero.mp hlen.symm
    constructor
    · intro _
      simp
    · intro hseen htr
      exfalso
      have hkeep : digestKeep st.core T0 kv = true := by
        rw [digestKeep, htr]
        simp [hseen]
      have hmem : kv ∈ st.core.pending.filter (digestKeep st.core T0) :=
        List.mem_filter.mpr ⟨hkv, hkeep⟩
      rw [hfilter_nil] at hmem
      exact List.not_mem_nil kv hmem
  · rw [DigestWindowSpec, hfire, if_neg hi]
    have hlines : ∀ l ∈ (digestSelection cfg st.core now).map (fun kv => kv.2.gamertag),
        l ≠ "" ∧ l.length ≤ 3500 := by
      intro l hl
      obtain ⟨kv2, hkv2, hgl⟩ := List.mem_map.mp hl
      rw [hsel] at hkv2
      have hmem2 : kv2 ∈ st.core.pending.filter (digestKeep st.core T0) :=
        (insSort_perm _ _).mem_iff.mp hkv2
      have hmem3 : kv2 ∈ st.core.pending := List.mem_of_mem_filter hmem2
      obtain ⟨hc1, hc2, hc3⟩ := hwf kv2 hmem3
      subst hgl
      refine ⟨?_, hc3⟩
      intro hempty
      apply hc2
      rw [← hc1, hempty]
      rfl
    obtain ⟨blocks, hb1, hb2, hb3, hb4⟩ :=
      chunkLines_spec ((digestSelection cfg st.core now).map (fun kv => kv.2.gamertag))
        3500 hlines
    refine ⟨rfl, rfl, blocks, hb1, fun b hb => (hb3 b hb).1, ?_⟩
    intro kv hkv
    have hcount : blocks.flatten.count kv.2.gamertag =
        ((st.core.pending.filter (digestKeep st.core T0)).map
          (fun x => x.2.gamertag)).count kv.2.gamertag := by
      rw [hb2, hsel]
      have hperm := insSort_perm (fun (a b : String × PendingEntry) => lexLe a.2.gamertag b.2.gamertag)
        (st.core.pending.filter (digestKeep st.core T0))
      exact (hperm.map (fun x => x.2.gamertag)).count_eq kv.2.gamertag
    constructor
    · intro hlt
      rw [hcount, hP kv hkv, if_neg ?_]
      rw [digestKeep]
      simp only [Bool.and_eq_true, decide_eq_true_eq]
      rintro ⟨_, h2⟩
      exact absurd hlt (not_lt.mpr h2)
    · intro hseen htr
      rw [hcount, hP kv hkv, if_pos ?_]
      rw [digestKeep, htr]
      simp [hseen]

/-- C5 witness: two pending entries, one inside the window and one last seen
before `T0`; the digest renders exactly the in-window handle and clears
pending. -/
theorem claim_C5_witness :
    defaultConfig.digestChannelConfigured = true ∧
    (⟨⟨[], [("alpha", ⟨"Alpha", 100, 1, 50⟩), ("beta", ⟨"Beta", 200, 1, 5⟩)], 10, [], []⟩,
      [], 0⟩ : St).core.lastDigestMs = 10 ∧
    (0 : Int) < 10 ∧
    defaultConfig.DIGEST_INTERVAL_HOURS * 60 * 60 * 1000 ≤ 3700000 - 10 ∧
    ((⟨⟨[], [("alpha", ⟨"Alpha", 100, 1, 50⟩), ("beta", ⟨"Beta", 200, 1, 5⟩)], 10, [], []⟩,
      [], 0⟩ : St).core.pending.map Prod.fst).Nodup ∧
    DigestWindowSpec defaultConfig
      ⟨⟨[], [("alpha", ⟨"Alpha", 100, 1, 50⟩), ("beta", ⟨"Beta", 200, 1, 5⟩)], 10, [], []⟩,
        [], 0⟩ 3700000 10 :=
  ⟨by decide, by decide, by decide, by decide, by decide,
   claim_C5 defaultConfig _ 3700000 10 (by decide) (by decide) (by decide) (by decide)
     (by decide) (by decide)⟩

/-- The backoff behaviour the source actually implements, in two layers:
inside `openXblFetchWithRetry`, a run of consecutive rate limits sleeps
`retryBackoff` at each incremented attempt count before the final success,
and the attempt count is private to each call (so it resets on any
non-rate-limited outcome); in the worker, a `RateLimitError` that escaped
the retry loop sets `cooldownUntilMs = now + min(max, retryAfter ?? base)`
— with no exponential factor — and changes nothing else in the state. -/
def BackoffSpec (cfg : Config) : Prop :=
  (∀ (ras : List (Option Int)) (m : MergedProfile) (a : Nat),
    a + ras.length ≤ cfg.XBL_MAX_RETRIES →
    runRetry cfg a (ras.map AttemptOutcome.rate ++ [AttemptOutcome.ok m]) =
      (RetryResult.ok m, expectedRetrySleeps cfg a ras)) ∧
  (∀ (st : St) (q : WorkQueue) (now : Int) (item : QueueItem) (rest : List QueueItem)
      (ra : Option Int),
    q.items = item :: rest →
    isTrustedKey st.core item.k = false →
    item.k ∉ st.core.checked →
    (processQueueStep cfg st q now (.rateLimited ra)).1.cooldownUntilMs =
      now + min cfg.XBL_BACKOFF_MAX_MS (ra.getD cfg.XBL_BACKOFF_BASE_MS) ∧
    (processQueueStep cfg st q now (.rateLimited ra)).1.core = st.core ∧
    (processQueueStep cfg st q now (.rateLimited ra)).1.journal = st.journal)

/-- C7 (amended): backoff computation — the pause slept inside the retry
loop at the n-th consecutive rate limit of one call is
`min(max, retryAfter if present and nonzero, else base * 2^(n-1))`, and the
consecutive count resets on any non-rate-limited outcome because it is
local to each call; this pause does not touch `cooldownUntilMs`.  When a
rate-limit error escapes to the worker, `cooldownUntilMs` is set to
`now + min(max, retryAfter if present — zero included — else base)`, with
no exponential factor. -/
theorem claim_C7 (cfg : Config) : BackoffSpec cfg := by
  constructor
  · intro ras
    induction ras with
    | nil =>
      intro m a _
      rfl
    | cons ra rest ih =>
      intro m a ha
      rw [List.map_cons, List.cons_append]
      show runRetry cfg a (AttemptOutcome.rate ra :: (rest.map AttemptOutcome.rate ++
        [AttemptOutcome.ok m])) = _
      rw [runRetry]
      rw [List.length_cons] at ha
      rw [if_neg (by omega)]
      rw [ih m (a + 1) (by omega)]
      rfl
  · intro st q now item rest ra hq hnt hnc
    obtain ⟨items, keys⟩ := q
    simp only at hq
    subst hq
    refine ⟨?_, ?_, ?_⟩ <;>
      simp only [processQueueStep, hnt, Bool.false_eq_true, if_false, if_neg hnc]

/-- C7 witness: two consecutive rate limits (one with a server retry-after,
one without) followed by a success sleep the code's per-attempt backoffs and
return the profile. -/
theorem claim_C7_witness :
    0 + 2 ≤ defaultConfig.XBL_MAX_RETRIES ∧
    runRetry defaultConfig 0
        ([some 7000, none].map AttemptOutcome.rate ++ [AttemptOutcome.ok ⟨"X", some 1⟩]) =
      (RetryResult.ok ⟨"X", some 1⟩, expectedRetrySleeps defaultConfig 0 [some 7000, none]) :=
  ⟨by decide, (claim_C7 defaultConfig).1 [some 7000, none] ⟨"X", some 1⟩ 0 (by decide)⟩

/-- C7 counterexample: with the default configuration, (a) a present
server-supplied retry-after of 0 ms does not give a 0 ms pause — the retry
loop's `||` falls through to the exponential form and sleeps 4000 ms, while
the claim's formula gives `min(60000, 0) = 0`; and (b) after a first
rate-limit (consecutive count 1), a second worker-level rate limit with no
retry-after sets `cooldownUntilMs = now + 4000` (base, uncapped by any
exponent), while the claim's `base * 2^1` formula demands `now + 8000`. -/
theorem claim_C7_counterexample :
    (runRetry defaultConfig 0 [AttemptOutcome.rate (some 0),
        AttemptOutcome.ok ⟨"X", some 1⟩]).2 = [4000] ∧
    specBackoffFormula defaultConfig (some 0) 0 = 0 ∧
    ((4000 : Int) = 0 → False) ∧
    (processQueueStep defaultConfig
        ((processQueueStep defaultConfig ⟨⟨[], [], 0, [], []⟩, [], 0⟩
          ⟨[⟨"Foo", "foo"⟩], ["foo"]⟩ 1000 (.rateLimited none)).1)
        ((processQueueStep defaultConfig ⟨⟨[], [], 0, [], []⟩, [], 0⟩
          ⟨[⟨"Foo", "foo"⟩], ["foo"]⟩ 1000 (.rateLimited none)).2)
        10000 (.rateLimited none)).1.cooldownUntilMs = 14000 ∧
    specBackoffFormula defaultConfig none 1 = 8000 ∧
    ((10000 : Int) + 8000 = 14000 → False) :=
  ⟨by decide, by decide, by decide, by decide, by decide, by decide⟩
